import Mathlib

/-!
# Verification of the smartclm-eval retrieval and risk-analysis core

Shallow embedding of the hybrid document search (`src/documents/repository.py`),
the hierarchical chunker (`src/documents/chunking.py`), the embedding service
(`src/aws/embedding_service.py`) and the 3-stage chain analysis
(`rag_pipeline.py`), together with theorems settling the specification claims.

Modelling conventions:
* Python floats used for similarity scores are modelled as rationals (`ℚ`).
* Python dicts with a fixed key set are modelled as structures; a key that may
  be absent is modelled as an `Option` field (`none` = key absent).
* External collaborators (the SQL vector searches, the Bedrock LLM and
  embedding calls, the langchain text splitters) are passed in as function
  parameters; fallible external calls return `Except`.
* Python's `list.sort(key=..., reverse=True)` is a stable sort; it is modelled
  by `List.insertionSort` with the non-strict descending relation, which
  keeps the original relative order of elements with equal keys.
-/

set_option maxRecDepth 100000

namespace SmartCLM

/-- Characters treated as whitespace by Python's `str.strip` / regex `\s`
(ASCII subset; the source never relies on non-ASCII whitespace). -/
def isPySpace (c : Char) : Bool :=
  c == ' ' || c == '\t' || c == '\n' || c == '\r' || c == '\x0b' || c == '\x0c'

/-- `str.strip()` on a character list. -/
def pyStripChars (cs : List Char) : List Char :=
  ((cs.dropWhile isPySpace).reverse.dropWhile isPySpace).reverse

/-- Python `str.strip()`. -/
def pyStrip (s : String) : String :=
  (pyStripChars s.data).asString

/-! ## Hybrid search (`DocumentRepository.search_documents_hybrid`) -/

/-- One scored search-result row, as produced by
`search_documents_by_vector` / `search_documents_by_vector_with_room_context`
(`repository.py`).  `weighted_score` and `source_type` model dict keys that are
absent until the hybrid fusion adds them. -/
structure SearchRes where
  chunk_id : ℕ
  content : String
  similarity_score : ℚ
  is_room_document : Bool := false
  weighted_score : Option ℚ := none
  source_type : Option String := none
deriving DecidableEq

/-- `result["weighted_score"] = result["similarity_score"] * weight;
result["source_type"] = src` (repository.py lines 565-574). -/
def tagResult (weight : ℚ) (src : String) (r : SearchRes) : SearchRes :=
  { r with weighted_score := some (r.similarity_score * weight), source_type := some src }

/-- The sort key comparison used at repository.py line 577:
`combined_results.sort(key=lambda x: x["weighted_score"], reverse=True)`.
All entries carry a `weighted_score` at that point; `getD 0` only discharges
the `Option`. -/
def weightedDesc (a b : SearchRes) : Prop :=
  b.weighted_score.getD 0 ≤ a.weighted_score.getD 0

instance : DecidableRel weightedDesc :=
  fun a b => inferInstanceAs (Decidable (b.weighted_score.getD 0 ≤ a.weighted_score.getD 0))

/-- Steps 2-3 of `search_documents_hybrid`: filter the room-context results to
room documents only, tag both sides with weights and provenance, concatenate
(system first, then room). -/
def hybrid_tagged_union (system_results room_results_raw : List SearchRes)
    (system_weight room_weight : ℚ) : List SearchRes :=
  (system_results.map (tagResult system_weight "system")) ++
    ((room_results_raw.filter (fun r => r.is_room_document)).map (tagResult room_weight "room"))

/-- Steps 2-5 of `search_documents_hybrid` (repository.py lines 556-580):
weight, merge, stable-sort descending by weighted score, truncate to `top_k`. -/
def hybrid_combine (system_results room_results_raw : List SearchRes)
    (system_weight room_weight : ℚ) (top_k : ℕ) : List SearchRes :=
  (List.insertionSort weightedDesc
    (hybrid_tagged_union system_results room_results_raw system_weight room_weight)).take top_k

/-- Arguments shared by the global vector search and the fallback call. -/
structure SearchArgs where
  query_embedding : List ℚ
  doc_types : Option (List String)
  top_k : ℕ
deriving DecidableEq

/-- `search_documents_hybrid` (repository.py lines 525-590).
`systemSearch args n` is the outcome of the `n`-th invocation of
`search_documents_by_vector` with arguments `args` (`n = 0` inside the `try`,
`n = 1` for the fallback call in the `except` branch); `roomSearch` is the
outcome of `search_documents_by_vector_with_room_context`, which only runs
when `room_id` is given.  A raised exception is an `Except.error`. -/
def search_documents_hybrid
    (systemSearch : SearchArgs → ℕ → Except String (List SearchRes))
    (roomSearch : Except String (List SearchRes)) (room_id : Option ℤ)
    (query_embedding : List ℚ) (doc_types : Option (List String)) (top_k : ℕ)
    (system_weight room_weight : ℚ) : Except String (List SearchRes) :=
  let args : SearchArgs := ⟨query_embedding, doc_types, top_k⟩
  match systemSearch args 0 with
  | .error _ => systemSearch args 1
  | .ok system_results =>
    match room_id with
    | none => .ok (hybrid_combine system_results [] system_weight room_weight top_k)
    | some _ =>
      match roomSearch with
      | .error _ => systemSearch args 1
      | .ok room_results =>
          .ok (hybrid_combine system_results room_results system_weight room_weight top_k)

/-- The fusion order claimed by the spec: descending weighted score, ties
broken by unweighted `similarity_score`, descending.  (Stated from the spec's
words, for comparison with the source's `hybrid_combine`.) -/
def simTieDesc (a b : SearchRes) : Prop :=
  b.weighted_score.getD 0 < a.weighted_score.getD 0 ∨
    (a.weighted_score.getD 0 = b.weighted_score.getD 0 ∧ b.similarity_score ≤ a.similarity_score)

instance : DecidableRel simTieDesc :=
  fun a b => inferInstanceAs (Decidable (_ ∨ _))

/-- Hybrid fusion as the claim words it: same union, but ties between equal
weighted scores broken by unweighted similarity, descending. -/
def hybrid_combine_claimed (system_results room_results_raw : List SearchRes)
    (system_weight room_weight : ℚ) (top_k : ℕ) : List SearchRes :=
  (List.insertionSort simTieDesc
    (hybrid_tagged_union system_results room_results_raw system_weight room_weight)).take top_k

/-- Position-indexed fusion order: descending weighted score, ties broken by
position in the concatenated union (system results first, then room results,
each in their original order).  This is what a stable sort by weighted score
alone produces. -/
def lexAmended (a b : ℕ × SearchRes) : Prop :=
  b.2.weighted_score.getD 0 < a.2.weighted_score.getD 0 ∨
    (a.2.weighted_score.getD 0 = b.2.weighted_score.getD 0 ∧ a.1 ≤ b.1)

instance : DecidableRel lexAmended :=
  fun a b => inferInstanceAs (Decidable (_ ∨ _))

/-! ## String helpers (kernel-evaluable models of the Python string ops used) -/

/-- `pre` is a prefix of `s` (Python `str.startswith`). -/
def pyStartsWith (s pre : String) : Bool :=
  pre.data.isPrefixOf s.data

/-- Worker for `pySplit`; `fuel ≥` length of the remaining text guarantees the
fuel is never exhausted for a non-empty separator. -/
def splitOnFuel (sep : List Char) : ℕ → List Char → List Char → List (List Char)
  | 0, cs, acc => [acc.reverse ++ cs]
  | _ + 1, [], acc => [acc.reverse]
  | fuel + 1, c :: rest, acc =>
    if sep.isPrefixOf (c :: rest) then
      acc.reverse :: splitOnFuel sep fuel ((c :: rest).drop sep.length) []
    else
      splitOnFuel sep fuel rest (c :: acc)

/-- Python `str.split(sep)` for a non-empty separator: leftmost,
non-overlapping, empty parts kept. -/
def pySplit (s sep : String) : List String :=
  (splitOnFuel sep.data s.data.length s.data []).map List.asString

/-- Python `sep.join(xs)`. -/
def pyJoin (sep : String) : List String → String
  | [] => ""
  | [x] => x
  | x :: y :: xs => x ++ sep ++ pyJoin sep (y :: xs)

/-! ## Clause-pattern recognition -/

/-- `re.match(r'^제\s*\d+\s*조', s)` as a Boolean: the marker 제, optional
whitespace, one or more decimal digits, optional whitespace, 조, anchored at
the start of the string (chunking.py line 73, rag_pipeline.py line 2005).
Decimal digits are modelled as ASCII digits. -/
def jeClauseMatch : List Char → Bool
  | '제' :: rest =>
    let rest1 := rest.dropWhile isPySpace
    let ds := rest1.takeWhile Char.isDigit
    if ds.isEmpty then false
    else
      match (rest1.drop ds.length).dropWhile isPySpace with
      | '조' :: _ => true
      | _ => false
  | _ => false

/-! ## Hierarchical chunker (`src/documents/chunking.py`) -/

/-- A parent document as returned by the (external) langchain
`MarkdownHeaderTextSplitter`: body text plus up to four header strings from
metadata (`""` = header key absent). -/
structure PDoc where
  page_content : String
  header_1 : String := ""
  header_2 : String := ""
  header_3 : String := ""
  header_4 : String := ""
deriving DecidableEq

/-- Chunk identifiers.  De-sugars the source's id strings
`f"{filename}_parent_{idx}"` and `f"{parent_id}_child_{cidx}"`, which are
injective per document, into a structured type. -/
inductive CId where
  | parent (source : String) (idx : ℕ)
  | child (source : String) (pidx cidx : ℕ)
deriving DecidableEq

/-- A parent chunk after `chunk_markdown`'s metadata enrichment
(chunking.py lines 105-155).  `is_standalone` is
`metadata.get("is_standalone", False)`: set to `True` only for parents of at
most 500 characters. -/
structure PChunkMeta where
  page_content : String
  header_1 : String
  header_2 : String
  header_3 : String
  header_4 : String
  source : String
  parent_id : CId
  parent_index : ℕ
  is_standalone : Bool
deriving DecidableEq

/-- A child chunk produced by the fan-out (chunking.py lines 119-145);
metadata (headers, source) is inherited from the parent. -/
structure CChunkMeta where
  page_content : String
  header_1 : String
  header_2 : String
  header_3 : String
  header_4 : String
  source : String
  parent_id : CId
  child_id : CId
  child_index : ℕ
deriving DecidableEq

/-- Result dictionary of `chunk_markdown` (success case; on exception the
source degrades to an empty result, which the claims do not touch). -/
structure ChunkingResult where
  filename : String
  parent_chunks : List PChunkMeta
  child_chunks : List CChunkMeta
  parent_child_mapping : List (CId × List CId)
deriving DecidableEq

/-- Step 1 of `chunk_markdown` (lines 67-80): rewrite lines matching the
clause pattern 제N조 into second-level markdown headers `## …`. -/
def preprocessClauseHeaders (markdown_content : String) : String :=
  pyJoin "\n" ((pySplit markdown_content "\n").map fun line =>
    if jeClauseMatch (pyStrip line).data then "## " ++ pyStrip line else line)

/-- Step 3 of `chunk_markdown` (lines 91-97): if `Header 2` carries a 제…조
clause string, promote it unchanged to `Header 1`. -/
def restoreClauseHeader (p : PDoc) : PDoc :=
  if (p.header_2 != "") && pyStartsWith p.header_2 "제" && p.header_2.data.contains '조' then
    { p with header_1 := p.header_2 }
  else p

/-- Parent metadata enrichment (lines 105-117 and 146-155). -/
def mkParentMeta (filename : String) (idx : ℕ) (p : PDoc) : PChunkMeta :=
  { page_content := p.page_content, header_1 := p.header_1, header_2 := p.header_2,
    header_3 := p.header_3, header_4 := p.header_4, source := filename,
    parent_id := CId.parent filename idx, parent_index := idx,
    is_standalone := decide (p.page_content.length ≤ 500) }

/-- Child metadata (lines 124-136). -/
def mkChildMeta (filename : String) (pidx : ℕ) (p : PDoc) (cidx : ℕ) (content : String) :
    CChunkMeta :=
  { page_content := content, header_1 := p.header_1, header_2 := p.header_2,
    header_3 := p.header_3, header_4 := p.header_4, source := filename,
    parent_id := CId.parent filename pidx, child_id := CId.child filename pidx cidx,
    child_index := cidx }

/-- `HierarchicalChunker.chunk_markdown` (chunking.py lines 48-190).
`markdownSplit` is the external langchain `MarkdownHeaderTextSplitter`,
`childSplit` the external `RecursiveCharacterTextSplitter` applied to a
parent's text; both are passed in as functions.  A parent is fanned out into
children exactly when its text exceeds 500 characters (line 120). -/
def chunk_markdown (markdownSplit : String → List PDoc) (childSplit : String → List String)
    (markdown_content filename : String) : ChunkingResult :=
  let preprocessed := preprocessClauseHeaders markdown_content
  let parents := (markdownSplit preprocessed).map restoreClauseHeader
  { filename := filename
    parent_chunks := parents.enum.map (fun ip => mkParentMeta filename ip.1 ip.2)
    child_chunks := parents.enum.flatMap (fun ip =>
      if 500 < ip.2.page_content.length then
        ((childSplit ip.2.page_content).enum).map (fun jc => mkChildMeta filename ip.1 ip.2 jc.1 jc.2)
      else [])
    parent_child_mapping := parents.enum.map (fun ip =>
      (CId.parent filename ip.1,
        if 500 < ip.2.page_content.length then
          ((childSplit ip.2.page_content).enum).map (fun jc => CId.child filename ip.1 jc.1)
        else [])) }

/-- A vector-DB-ready chunk dict as built by `create_vector_ready_chunks`
(chunking.py lines 196-303).  Child entries carry no `is_standalone` key in
the source; the field defaults to `false`, matching the reader's
`metadata.get("is_standalone", False)`. -/
structure VChunk where
  content : String
  chunk_id : CId
  parent_id : CId
  child_id : CId
  chunk_type : String
  header_1 : String
  header_2 : String
  header_3 : String
  header_4 : String
  source_file : String
  content_length : ℕ
  is_standalone : Bool := false
  is_for_embedding : Bool
deriving DecidableEq

/-- Parent entry (lines 216-260): embeddable iff standalone. -/
def parentToVChunk (p : PChunkMeta) : VChunk :=
  { content := p.page_content, chunk_id := p.parent_id, parent_id := p.parent_id,
    child_id := p.parent_id, chunk_type := "parent", header_1 := p.header_1,
    header_2 := p.header_2, header_3 := p.header_3, header_4 := p.header_4,
    source_file := p.source, content_length := p.page_content.length,
    is_standalone := p.is_standalone, is_for_embedding := p.is_standalone }

/-- Child entry (lines 266-292): always an embedding target. -/
def childToVChunk (c : CChunkMeta) : VChunk :=
  { content := c.page_content, chunk_id := c.child_id, parent_id := c.parent_id,
    child_id := c.child_id, chunk_type := "child", header_1 := c.header_1,
    header_2 := c.header_2, header_3 := c.header_3, header_4 := c.header_4,
    source_file := c.source, content_length := c.page_content.length,
    is_for_embedding := true }

/-- `create_vector_ready_chunks` (success case): parent entries first, then
child entries. -/
def create_vector_ready_chunks (r : ChunkingResult) : List VChunk :=
  r.parent_chunks.map parentToVChunk ++ r.child_chunks.map childToVChunk

/-- The full segmentation pipeline of one document: `chunk_markdown` followed
by `create_vector_ready_chunks`. -/
def vchunksOf (markdownSplit : String → List PDoc) (childSplit : String → List String)
    (markdown_content filename : String) : List VChunk :=
  create_vector_ready_chunks (chunk_markdown markdownSplit childSplit markdown_content filename)

/-- `c` is a child entry belonging to the parent with id `pid`. -/
def isChildOf (pid : CId) (c : VChunk) : Prop :=
  c.chunk_type = "child" ∧ c.parent_id = pid

/-- The mutable chunking settings of `HierarchicalChunker` (chunking.py lines
29-30); the remaining attributes (header config, the derived splitters) are
functions of these. -/
structure HierarchicalChunkerState where
  chunk_size : ℕ
  chunk_overlap : ℕ
deriving DecidableEq

/-- `update_chunk_settings` (chunking.py lines 41-46): store the new size and
overlap and recreate the child splitter. -/
def update_chunk_settings (st : HierarchicalChunkerState) (chunk_size chunk_overlap : ℕ) :
    HierarchicalChunkerState :=
  { st with chunk_size := chunk_size, chunk_overlap := chunk_overlap }

/-- `chunk_markdown` as invoked on a chunker instance: the child splitter is
the external splitter family instantiated at the instance's current
`chunk_size` / `chunk_overlap`. -/
def chunk_markdown_st (markdownSplit : String → List PDoc)
    (splitterFamily : ℕ → ℕ → String → List String) (st : HierarchicalChunkerState)
    (markdown_content filename : String) : ChunkingResult :=
  chunk_markdown markdownSplit (splitterFamily st.chunk_size st.chunk_overlap)
    markdown_content filename

/-! ## Contract sectioning (`rag_pipeline.py _split_contract_into_sections`) -/

/-- A section dict of `_split_contract_into_sections`.  `chunk_type` is an
optional key: the initial 서문 section has none until it is saved mid-loop. -/
structure Section0 where
  header_1 : String
  content : String
  chunk_type : Option String := none
deriving DecidableEq

/-- The numbered-clause line patterns of rag_pipeline.py line 2013. -/
def numberedPatterns : List String :=
  ["1.", "2.", "3.", "4.", "5.", "6.", "7.", "8.", "9."]

/-- Header classification of one stripped, non-empty line
(rag_pipeline.py lines 1998-2017): markdown heading, 제N조 clause, English
Article, or a numbered item that is long enough and starts a fresh section. -/
def lineHeader (line : String) (contentEmpty : Bool) : Option String :=
  if pyStartsWith line "#" then some (pyStrip (line.data.dropWhile (· == '#')).asString)
  else if jeClauseMatch line.data then some line
  else if pyStartsWith line "Article" || pyStartsWith line "ARTICLE" then some line
  else if (numberedPatterns.any (fun p => pyStartsWith line p)) && (10 < line.length)
      && contentEmpty then some line
  else none

/-- Content accumulation (lines 2032-2036). -/
def appendLine (content line : String) : String :=
  if content ≠ "" then content ++ "\n" ++ line else line

/-- The line loop of `_split_contract_into_sections` (lines 1992-2041),
including the final save of the current section. -/
def splitSectionsLoop : List String → Section0 → List Section0 → List Section0
  | [], current, sections =>
      if pyStrip current.content ≠ "" then sections ++ [current] else sections
  | line :: rest, current, sections =>
      let l := pyStrip line
      if l = "" then splitSectionsLoop rest current sections
      else
        match lineHeader l (current.content = "") with
        | some h =>
            splitSectionsLoop rest ⟨h, "", some "parent"⟩
              (if pyStrip current.content ≠ "" then
                sections ++ [{ current with chunk_type := some "parent" }]
              else sections)
        | none =>
            splitSectionsLoop rest { current with content := appendLine current.content l } sections

/-- The paragraph fallback (rag_pipeline.py lines 2043-2054): split the raw
text on `"\n\n"`, strip, drop empties, then walk the **first ten** paragraphs
and keep those longer than 50 characters, numbering headers by position among
those first ten (1-based). -/
def fallbackParagraphSections (markdown_content : String) : List Section0 :=
  let paragraphs := ((pySplit markdown_content "\n\n").map pyStrip).filter (fun p => p ≠ "")
  ((paragraphs.take 10).enum).filterMap (fun ip =>
    if 50 < ip.2.length then
      some ⟨"조항 " ++ toString (ip.1 + 1), ip.2, some "parent"⟩
    else none)

/-- `_split_contract_into_sections` (rag_pipeline.py lines 1971-2067): header
loop, then the paragraph fallback when the loop produced zero sections. -/
def split_contract_into_sections (markdown_content : String) : List Section0 :=
  let sections := splitSectionsLoop (pySplit markdown_content "\n") ⟨"서문", "", none⟩ []
  if sections = [] then fallbackParagraphSections markdown_content else sections

/-- The fallback as the claim words it: keep **all** paragraphs longer than 50
characters, then cap the output at 10.  (Stated from the claim's words, for
comparison with the source's `fallbackParagraphSections`.) -/
def fallbackParagraphSectionsClaimed (markdown_content : String) : List Section0 :=
  let paragraphs := ((pySplit markdown_content "\n\n").map pyStrip).filter (fun p => p ≠ "")
  (((paragraphs.filter (fun p => 50 < p.length)).take 10).enum).map (fun ip =>
    ⟨"조항 " ++ toString (ip.1 + 1), ip.2, some "parent"⟩)

/-! ## Embedding service (`TitanEmbeddingService.embed_chunked_documents`) -/

/-- A chunk dict as consumed/produced by `embed_chunked_documents`
(embedding_service.py lines 98-225).  `Option` fields model dict keys that
may be absent (`none` = key absent); `embedding` distinguishes an absent key
(`none`) from a present `None` value (`some none`). -/
structure EmbChunk where
  content : String
  is_for_embedding : Option Bool := none
  chunk_type : Option String := none
  embedding : Option (Option (List ℚ)) := none
  embedding_success : Option Bool := none
  embedding_error : Option String := none
  embedding_reason : Option String := none
deriving DecidableEq

/-- `doc.get("is_for_embedding", True)` (line 123): the classification that
decides whether a chunk is an embedding target; an absent key defaults to
`True`. -/
def isEmbeddingTarget (d : EmbChunk) : Bool :=
  d.is_for_embedding.getD true

/-- Enrichment of a non-target (parent) chunk (lines 128-136): null vector,
failure flag, recorded reason. -/
def parentPassThrough (d : EmbChunk) : EmbChunk :=
  { d with embedding := some none, embedding_success := some false,
           embedding_reason := some "Parent chunk - 임베딩 불필요" }

/-- Successful merge of one embedding target (lines 171-182). -/
def embedSuccess (d : EmbChunk) (v : List ℚ) : EmbChunk :=
  { d with embedding := some (some v), embedding_success := some true }

/-- Per-target failure note (lines 183-186): blank text or exhausted vectors. -/
def embedBlankFail (d : EmbChunk) : EmbChunk :=
  { d with embedding := some none, embedding_success := some false,
           embedding_error := some "빈 텍스트 또는 처리 실패" }

/-- Whole-batch failure enrichment from the `except` branch (lines 214-225). -/
def embedBatchFail (e : String) (d : EmbChunk) : EmbChunk :=
  { d with embedding := some none, embedding_success := some false,
           embedding_error := some e }

/-- The text list actually handed to `create_batch_embeddings`
(lines 151-163): contents of the embedding targets, in order, with blank
texts filtered out pre-call. -/
def batch_texts (docs : List EmbChunk) : List String :=
  ((docs.filter isEmbeddingTarget).map (fun d => d.content)).filter
    (fun t => pyStrip t ≠ "")

/-- The result-merge phase (lines 165-192), expressed as one pass over the
documents in original order: the source fills an array indexed by original
position from the target and non-target partitions, which visits the same
chunks in the same order.  `embIdx` is the running `embedding_index`: it
advances only when a target had non-blank text and a vector is available. -/
def embedMergePass (embeds : List (List ℚ)) : ℕ → List EmbChunk → List EmbChunk
  | _, [] => []
  | embIdx, d :: rest =>
    if isEmbeddingTarget d then
      match embeds[embIdx]? with
      | some v =>
        if pyStrip d.content ≠ "" then
          embedSuccess d v :: embedMergePass embeds (embIdx + 1) rest
        else
          embedBlankFail d :: embedMergePass embeds embIdx rest
      | none => embedBlankFail d :: embedMergePass embeds embIdx rest
    else
      parentPassThrough d :: embedMergePass embeds embIdx rest

/-- `embed_chunked_documents` (embedding_service.py lines 98-225).
`embedCall` is the external batched embedding model
(`create_batch_embeddings`); a raised exception is an `Except.error`. -/
def embed_chunked_documents (embedCall : List String → Except String (List (List ℚ)))
    (docs : List EmbChunk) : List EmbChunk :=
  if docs.isEmpty then []
  else
    let embedding_targets := docs.filter isEmbeddingTarget
    if embedding_targets.isEmpty then
      (docs.filter (fun d => !isEmbeddingTarget d)).map parentPassThrough
    else
      let valid_texts := batch_texts docs
      if valid_texts.isEmpty then docs
      else
        match embedCall valid_texts with
        | .error e => docs.map (embedBatchFail e)
        | .ok embeds => embedMergePass embeds 0 docs

/-! ## JSON values and a model of `json.loads`

The pipeline parses LLM output with Python's `json.loads`.  The model below
implements the JSON grammar (RFC 8259) over character lists: objects keep
insertion order with later duplicate keys overwriting in place, numbers are
evaluated as rationals, strings support the standard escapes including
`\uXXXX` with surrogate pairs.  Deviations from CPython, none of which the
analysed responses exercise: lone surrogate escapes and the `NaN`/`Infinity`
extensions are rejected. -/

inductive JVal where
  | jnull
  | jbool (b : Bool)
  | jnum (q : ℚ)
  | jstr (s : String)
  | jarr (elems : List JVal)
  | jobj (fields : List (String × JVal))

/-- JSON inter-token whitespace. -/
def jsonWs (c : Char) : Bool :=
  c == ' ' || c == '\t' || c == '\n' || c == '\r'

/-- Value of one hex digit. -/
def hexVal (c : Char) : Option ℕ :=
  if c.isDigit then some (c.toNat - 48)
  else if 'a' ≤ c ∧ c ≤ 'f' then some (c.toNat - 87)
  else if 'A' ≤ c ∧ c ≤ 'F' then some (c.toNat - 55)
  else none

/-- Four hex digits. -/
def hex4 (a b c d : Char) : Option ℕ := do
  let va ← hexVal a
  let vb ← hexVal b
  let vc ← hexVal c
  let vd ← hexVal d
  pure (((va * 16 + vb) * 16 + vc) * 16 + vd)

/-- A scalar-value code point as a `Char`. -/
def mkScalarChar (n : ℕ) : Option Char :=
  if h : n < 0xd800 ∨ (0xdfff < n ∧ n < 0x110000) then
    some ⟨UInt32.ofNat n, by
      rcases h with h | h
      · exact Or.inl (by simpa [UInt32.ofNat, Fin.ofNat, Nat.mod_eq_of_lt (by omega : n < 4294967296)] using (by omega : n % 4294967296 < 55296))
      · exact Or.inr (by constructor <;>
          simpa [UInt32.ofNat, Fin.ofNat, Nat.mod_eq_of_lt (by omega : n < 4294967296)] using (by omega))⟩
  else none

/-- JSON string body after the opening quote: returns the decoded characters
and the remaining input after the closing quote.  Raw control characters are
rejected (`json.loads` default `strict=True`). -/
def parseStringRest : List Char → Option (List Char × List Char)
  | [] => none
  | '"' :: rest => some ([], rest)
  | '\\' :: esc =>
    match esc with
    | '"' :: r => (parseStringRest r).map (fun sr => ('"' :: sr.1, sr.2))
    | '\\' :: r => (parseStringRest r).map (fun sr => ('\\' :: sr.1, sr.2))
    | '/' :: r => (parseStringRest r).map (fun sr => ('/' :: sr.1, sr.2))
    | 'b' :: r => (parseStringRest r).map (fun sr => ('\x08' :: sr.1, sr.2))
    | 'f' :: r => (parseStringRest r).map (fun sr => ('\x0c' :: sr.1, sr.2))
    | 'n' :: r => (parseStringRest r).map (fun sr => ('\n' :: sr.1, sr.2))
    | 'r' :: r => (parseStringRest r).map (fun sr => ('\r' :: sr.1, sr.2))
    | 't' :: r => (parseStringRest r).map (fun sr => ('\t' :: sr.1, sr.2))
    | 'u' :: a :: b :: c :: d :: r =>
      match hex4 a b c d with
      | none => none
      | some n =>
        if 0xd800 ≤ n ∧ n ≤ 0xdbff then
          match r with
          | '\\' :: 'u' :: a2 :: b2 :: c2 :: d2 :: r2 =>
            match hex4 a2 b2 c2 d2 with
            | none => none
            | some m =>
              if 0xdc00 ≤ m ∧ m ≤ 0xdfff then
                match mkScalarChar (0x10000 + (n - 0xd800) * 0x400 + (m - 0xdc00)) with
                | some ch => (parseStringRest r2).map (fun sr => (ch :: sr.1, sr.2))
                | none => none
              else none
          | _ => none
        else
          match mkScalarChar n with
          | some ch => (parseStringRest r).map (fun sr => (ch :: sr.1, sr.2))
          | none => none
    | _ => none
  | c :: rest =>
    if c.toNat < 32 then none
    else (parseStringRest rest).map (fun sr => (c :: sr.1, sr.2))

/-- Decimal digits to a natural number. -/
def digitsToNat (ds : List Char) : ℕ :=
  ds.foldl (fun a c => a * 10 + (c.toNat - 48)) 0

/-- Fraction and exponent tail of a JSON number, given the sign and integer
part already consumed. -/
def parseNumTail (neg : Bool) (ip : ℕ) (cs : List Char) : Option (ℚ × List Char) :=
  let stepFrac : Option ((ℕ × ℕ) × List Char) :=
    match cs with
    | '.' :: r =>
      let ds := r.takeWhile Char.isDigit
      if ds.isEmpty then none else some ((digitsToNat ds, ds.length), r.drop ds.length)
    | _ => some ((0, 0), cs)
  match stepFrac with
  | none => none
  | some ((fv, fl), cs2) =>
    let stepExp : Option (ℤ × List Char) :=
      match cs2 with
      | 'e' :: r | 'E' :: r =>
        let se : ℤ × List Char :=
          match r with
          | '+' :: rr => (1, rr)
          | '-' :: rr => (-1, rr)
          | _ => (1, r)
        let ds := se.2.takeWhile Char.isDigit
        if ds.isEmpty then none else some (se.1 * digitsToNat ds, se.2.drop ds.length)
      | _ => some (0, cs2)
    match stepExp with
    | none => none
    | some (ex, cs3) =>
      let base : ℚ := (ip : ℚ) + (fv : ℚ) / ((10 : ℚ) ^ fl)
      let signed := if neg then -base else base
      let q := if 0 ≤ ex then signed * (10 : ℚ) ^ ex.toNat else signed / (10 : ℚ) ^ (-ex).toNat
      some (q, cs3)

/-- JSON number: optional minus, `0` or a nonzero-led digit run, optional
fraction, optional exponent. -/
def parseNumber (cs : List Char) : Option (ℚ × List Char) :=
  let sc : Bool × List Char := match cs with | '-' :: r => (true, r) | _ => (false, cs)
  match sc.2 with
  | '0' :: r => parseNumTail sc.1 0 r
  | c :: r =>
    if c.isDigit then
      let ds := (c :: r).takeWhile Char.isDigit
      parseNumTail sc.1 (digitsToNat ds) ((c :: r).drop ds.length)
    else none
  | [] => none

/-- Insert/overwrite a key in an insertion-ordered dict: an existing key keeps
its position (CPython dict update semantics). -/
def setKeyJ (fields : List (String × JVal)) (k : String) (v : JVal) : List (String × JVal) :=
  if fields.any (fun kv => kv.1 == k) then
    fields.map (fun kv => if kv.1 == k then (k, v) else kv)
  else fields ++ [(k, v)]

/-- Dict lookup. -/
def getKeyJ (fields : List (String × JVal)) (k : String) : Option JVal :=
  (fields.find? (fun kv => kv.1 == k)).map (fun kv => kv.2)

/-- Parser mode: a plain value, or the element/field loop of a partially
consumed array/object. -/
inductive PMode where
  | val
  | arrElems (acc : List JVal)
  | objFields (acc : List (String × JVal))

/-- Recursive-descent JSON parser, fuelled to stay structurally recursive. -/
def parseJ : ℕ → PMode → List Char → Option (JVal × List Char)
  | 0, _, _ => none
  | fuel + 1, .val, cs0 =>
    let cs := cs0.dropWhile jsonWs
    match cs with
    | 'n' :: 'u' :: 'l' :: 'l' :: rest => some (.jnull, rest)
    | 't' :: 'r' :: 'u' :: 'e' :: rest => some (.jbool true, rest)
    | 'f' :: 'a' :: 'l' :: 's' :: 'e' :: rest => some (.jbool false, rest)
    | '"' :: rest => (parseStringRest rest).map (fun sr => (.jstr sr.1.asString, sr.2))
    | '[' :: rest => parseJ fuel (.arrElems []) rest
    | '{' :: rest => parseJ fuel (.objFields []) rest
    | _ => (parseNumber cs).map (fun qr => (.jnum qr.1, qr.2))
  | fuel + 1, .arrElems acc, cs0 =>
    let cs := cs0.dropWhile jsonWs
    match cs, acc with
    | ']' :: rest, [] => some (.jarr [], rest)
    | _, _ =>
      match parseJ fuel .val cs with
      | none => none
      | some (v, rest1) =>
        match rest1.dropWhile jsonWs with
        | ',' :: rest2 => parseJ fuel (.arrElems (acc ++ [v])) rest2
        | ']' :: rest2 => some (.jarr (acc ++ [v]), rest2)
        | _ => none
  | fuel + 1, .objFields acc, cs0 =>
    let cs := cs0.dropWhile jsonWs
    match cs, acc with
    | '}' :: rest, [] => some (.jobj [], rest)
    | '"' :: rest, _ =>
      match parseStringRest rest with
      | none => none
      | some (k, rest1) =>
        match rest1.dropWhile jsonWs with
        | ':' :: rest2 =>
          match parseJ fuel .val rest2 with
          | none => none
          | some (v, rest3) =>
            match rest3.dropWhile jsonWs with
            | ',' :: rest4 => parseJ fuel (.objFields (setKeyJ acc k.asString v)) rest4
            | '}' :: rest4 => some (.jobj (setKeyJ acc k.asString v), rest4)
            | _ => none
        | _ => none
    | _, _ => none

/-- `json.loads`: parse one value and require only whitespace after it.  The
fuel is generous: every two parser steps consume at least one character. -/
def json_loads (s : String) : Option JVal :=
  match parseJ (4 * (s.length + 2)) .val s.data with
  | some (v, rest) => if (rest.dropWhile jsonWs).isEmpty then some v else none
  | none => none

/-! ## LLM-response JSON extraction (rag_pipeline.py lines 874-881 and
1036-1041) -/

/-- The continuation `\s*```` ``` ```` after the group's closing brace. -/
def fenceAfterClose (cs : List Char) : Bool :=
  "```".data.isPrefixOf (cs.dropWhile isPySpace)

/-- The lazy `.*?` of `(\{.*?\})`: scan for the first `}` whose continuation
matches `\s*```` ``` ````, returning the characters before it. -/
def lazyCloseScan : List Char → List Char → Option (List Char)
  | _, [] => none
  | acc, c :: rest =>
    if c = '}' ∧ fenceAfterClose rest then some acc.reverse
    else lazyCloseScan (c :: acc) rest

/-- The part of the fence pattern after the literal ```` ```json ````:
`\s*(\{.*?\})\s*```` ``` ````, returning capture group 1 (braces included). -/
def matchFenceBody (cs : List Char) : Option (List Char) :=
  match cs.dropWhile isPySpace with
  | '{' :: rest => (lazyCloseScan [] rest).map (fun inner => '{' :: (inner ++ ['}']))
  | _ => none

/-- `re.search(r'```json\s*(\{.*?\})\s*```', text, re.DOTALL)`: leftmost
start position at which the whole pattern matches. -/
def findFencedJson : List Char → Option (List Char)
  | [] => none
  | cs@(_ :: rest) =>
    match (if ("```json".data).isPrefixOf cs then matchFenceBody (cs.drop 7) else none) with
    | some g => some g
    | none => findFencedJson rest

/-- The `json_str` computation shared by chain stages 1 and 3: capture group
of the fenced-block regex if it matches, otherwise the whole response text
stripped. -/
def extract_json_str (response_text : String) : String :=
  match findFencedJson response_text.data with
  | some g => g.asString
  | none => pyStrip response_text

/-! ## Chain stage 1 (`_chain1_identify_violations`, rag_pipeline.py lines
749-907): response processing -/

/-- `re.search(r'제(\d+)조', clause_num)`: first occurrence of 제, one or more
digits, 조 (no whitespace allowed), returning the digits' value.  The greedy
`\d+` takes the maximal digit run; backtracking cannot shorten it because a
shorter run would leave a digit where 조 is required. -/
def searchJeNJo : List Char → Option ℕ
  | [] => none
  | c :: rest =>
    if c = '제' then
      let ds := rest.takeWhile Char.isDigit
      if ds.isEmpty then searchJeNJo rest
      else if (rest.drop ds.length).head? = some '조' then some (digitsToNat ds)
      else searchJeNJo rest
    else searchJeNJo rest

/-- `d.get(k, "")` restricted to string values (a non-string value would only
change the cosmetic formatting of the fallback strings). -/
def getStrD (fields : List (String × JVal)) (k : String) : String :=
  match getKeyJ fields k with
  | some (.jstr s) => s
  | _ => ""

/-- Locator resolution (lines 888-895): 제N조 found → `N - 1`, else `0`. -/
def chunkIndexOf (clause_number : String) : ℤ :=
  match searchJeNJo clause_number.data with
  | some n => (n : ℤ) - 1
  | none => 0

/-- `violation["chunk_index"] = …` applied to one candidate dict;
`violation.get("clause_number", "")` defaults an absent key to `""`. -/
def assignChunkIndex (fields : List (String × JVal)) : List (String × JVal) :=
  setKeyJ fields "chunk_index" (.jnum ((chunkIndexOf (getStrD fields "clause_number") : ℤ) : ℚ))

/-- A violation entry the chain-1 loop can process without raising: an object
whose `clause_number`, if present, is a string (a non-object entry or a
non-string locator raises `AttributeError`/`TypeError`, which the outer
handler turns into `[]`). -/
def violationWellFormed (v : JVal) : Bool :=
  match v with
  | .jobj fields =>
    match getKeyJ fields "clause_number" with
    | none => true
    | some (.jstr _) => true
    | some _ => false
  | _ => false

/-- Response processing of `_chain1_identify_violations` (lines 869-907),
starting from the raw LLM response text.  Any raised error — JSON decode
failure, a non-dict result, a non-list `violations` value, or a malformed
entry — degrades to the empty candidate list. -/
def chain1_identify_violations (response_text : String) : List JVal :=
  match json_loads (extract_json_str response_text) with
  | none => []
  | some (.jobj fields) =>
    match getKeyJ fields "violations" with
    | some (.jarr items) =>
      if items.all violationWellFormed then
        items.map (fun v =>
          match v with
          | .jobj f => .jobj (assignChunkIndex f)
          | other => other)
      else []
    | some _ => []
    | none => []
  | some _ => []

/-! ## Chain stage 2 (`_chain2_search_related_laws`, rag_pipeline.py lines
909-955) -/

/-- A law search hit, with the fields stage 3 reads. -/
structure LawDoc where
  filename : String
  content : String
  similarity_score : ℚ
deriving DecidableEq

/-- A stage-2 output candidate: the copied stage-1 dict plus the
`related_laws` / `laws_found` keys. -/
structure ViolationWithLaws where
  violation : List (String × JVal)
  related_laws : List LawDoc
  laws_found : ℕ

/-- `_search_laws_for_violation` (lines 933-955): augment one candidate with
its law-search hits; every exception is caught internally and degrades to an
empty evidence list with a zero count. -/
def search_laws_for_violation (searchOutcome : Except String (List LawDoc))
    (violation : List (String × JVal)) : ViolationWithLaws :=
  match searchOutcome with
  | .ok laws => ⟨violation, laws, laws.length⟩
  | .error _ => ⟨violation, [], 0⟩

/-- `_chain2_search_related_laws` (lines 909-931).  `searchOutcome i` is the
outcome of candidate `i`'s concurrent law search.  The
`asyncio.gather(..., return_exceptions=True)` collection would drop a task
that ended in an exception, but `_search_laws_for_violation` catches every
exception internally and always returns a dict, so each task contributes
exactly one result, in task order. -/
def chain2_search_related_laws (searchOutcome : ℕ → Except String (List LawDoc))
    (violation_candidates : List (List (String × JVal))) : List ViolationWithLaws :=
  violation_candidates.enum.map (fun iv => search_laws_for_violation (searchOutcome iv.1) iv.2)

/-! ## Chain stage 3 (`_chain3_detailed_analysis`, rag_pipeline.py lines
957-1075): response processing -/

/-- Python `str.replace(pat, rep)` (all occurrences), fuelled. -/
def replaceAllFuel (pat rep : List Char) : ℕ → List Char → List Char
  | 0, cs => cs
  | _ + 1, [] => []
  | fuel + 1, c :: rest =>
    if pat.isPrefixOf (c :: rest) then rep ++ replaceAllFuel pat rep fuel ((c :: rest).drop pat.length)
    else c :: replaceAllFuel pat rep fuel rest

/-- Python `str.replace`. -/
def pyReplace (s pat rep : String) : String :=
  (replaceAllFuel pat.data rep.data s.data.length s.data).asString

/-- The fallback verdict substituted on a per-candidate JSON parse failure
(lines 1051-1057): assembled only from the candidate's stage-1/2 fields plus
at most two evidence filenames (with `.pdf` stripped) as cited laws. -/
def chain3_fallback (vd : ViolationWithLaws) : JVal :=
  .jobj
    [("조항_위치", .jstr (getStrD vd.violation "clause_number" ++ " (" ++
        getStrD vd.violation "clause_title" ++ ")")),
     ("리스크_유형", .jstr (getStrD vd.violation "risk_type")),
     ("판단_근거", .jstr (getStrD vd.violation "brief_reason")),
     ("의견", .jstr "상세 분석 실패로 인해 기본 정보만 제공"),
     ("관련_법령", .jarr ((vd.related_laws.take 2).map
        (fun law => .jstr (pyReplace law.filename ".pdf" ""))))]

/-- Per-candidate verdict of stage 3 (lines 1030-1057): the parsed response,
or the fallback verdict when the extracted text does not parse. -/
def chain3_entry (response_text : String) (vd : ViolationWithLaws) : JVal :=
  match json_loads (extract_json_str response_text) with
  | some v => v
  | none => chain3_fallback vd

/-- The `violations` list of `_chain3_detailed_analysis` (lines 963-1071).
`llm i` is the response text of the `i`-th sequential `invoke_model` call;
the model covers the model-output-format path (an `invoke_model` transport
failure is an upstream-infrastructure error hitting the outer per-candidate
handler). -/
def chain3_detailed_analysis (llm : ℕ → String)
    (violations_with_laws : List ViolationWithLaws) : List JVal :=
  violations_with_laws.enum.map (fun iv => chain3_entry (llm iv.1) iv.2)

/-! ## Declarative predicates used in claim statements -/

/-- The string contains the clause pattern 제N조 — some occurrence of 제
followed directly by one or more digits followed directly by 조 (the
declarative counterpart of the scanner `searchJeNJo`). -/
def HasJeNJo (cs : List Char) : Prop :=
  ∃ pre ds post, cs = pre ++ '제' :: (ds ++ '조' :: post) ∧ ds ≠ [] ∧ ∀ c ∈ ds, c.isDigit

/-- The fields of a chunk dict that `embed_chunked_documents` must not touch:
content, classification flag, chunk type. -/
def embedCore (d : EmbChunk) : String × Option Bool × Option String :=
  (d.content, d.is_for_embedding, d.chunk_type)

/-! ## Concrete instances used by witnesses and counterexamples -/

/-- A global search hit: similarity 2/5, weighted 2/5 · 3/5 = 6/25. -/
def c1sys : SearchRes :=
  { chunk_id := 1, content := "global hit", similarity_score := 2/5 }

/-- A room search hit: similarity 3/5, weighted 3/5 · 2/5 = 6/25 — the same
weighted score as `c1sys` but a strictly larger unweighted similarity. -/
def c1room : SearchRes :=
  { chunk_id := 2, content := "room hit", similarity_score := 3/5, is_room_document := true }

/-- A bare JSON object surrounded by prose, as an LLM might answer. -/
def c3text : String :=
  "분석 결과: \x7b\"violations\": [\x7b\"clause_number\": \"제3조\"\x7d]\x7d 끝"

/-- A markdown line that the section splitter classifies as a heading and
whose paragraph is longer than 50 characters. -/
def c6longLine : String := "# " ++ (List.replicate 60 'x').asString

/-- Eleven paragraphs, all heading lines (so the header pass yields zero
sections): the first is short (≤ 50 chars), the next ten are long. -/
def c6Input : String := pyJoin "\n\n" ("# a" :: List.replicate 10 c6longLine)

/-- A chunk dict with no `is_for_embedding` key and blank content. -/
def c9doc : EmbChunk := { content := "" }

/-- A markdown splitter stub returning one short and one long parent. -/
def c2mdSplit : String → List PDoc :=
  fun _ => [{ page_content := "제2조 본문" },
            { page_content := (List.replicate 600 'x').asString }]

/-- A child splitter stub: one child carrying the whole text. -/
def c2childSplit : String → List String := fun s => [s]

/-- A stage-2 candidate with three evidence documents. -/
def c4vd : ViolationWithLaws :=
  { violation := [("clause_number", .jstr "제9조"), ("clause_title", .jstr "손해배상"),
                  ("risk_type", .jstr "과도한_손해배상"), ("brief_reason", .jstr "일방적 배상")],
    related_laws := [⟨"민법.pdf", "내용1", 9/10⟩, ⟨"상법.pdf", "내용2", 8/10⟩,
                     ⟨"기타.pdf", "내용3", 7/10⟩],
    laws_found := 3 }

/-- Two stage-1 candidate dicts for the stage-2 witness. -/
def c8cands : List (List (String × JVal)) :=
  [[("clause_number", .jstr "제1조"), ("clause_title", .jstr "목적")],
   [("clause_number", .jstr "제2조"), ("clause_title", .jstr "정의")]]

/-- A law-search oracle that fails for candidate 0 and succeeds for 1. -/
def c8search : ℕ → Except String (List LawDoc) :=
  fun i => if i = 0 then .error "search down" else .ok [⟨"민법.pdf", "내용", 4/5⟩]

/-- A global-search oracle whose first call raises and whose fallback call
returns one hit. -/
def c7system : SearchArgs → ℕ → Except String (List SearchRes) :=
  fun _ n => if n = 0 then .error "db down" else .ok [c1sys]

/-- A stage-1 LLM response: fenced JSON with one resolvable and one
unresolvable clause locator. -/
def c5resp : String :=
  "```json\n\x7b\"violations\": [\x7b\"clause_number\": \"제3조\", \"risk_level\": \"높음\"\x7d, " ++
    "\x7b\"clause_number\": \"서문\"\x7d]\x7d\n```"

/-- The two candidate objects inside `c5resp`. -/
def c5items : List JVal :=
  [.jobj [("clause_number", .jstr "제3조"), ("risk_level", .jstr "높음")],
   .jobj [("clause_number", .jstr "서문")]]

/-- The parsed top-level object of `c5resp`. -/
def c5fields : List (String × JVal) := [("violations", .jarr c5items)]

/-! # Theorems -/

/-- C7: if any step of the hybrid search raises — the global search inside
the `try` or the workspace-scoped search — `search_documents_hybrid` does not
propagate the exception: it re-runs the global-only vector search with the
same query embedding, doc-type filter and `top_k` and returns exactly that
call's result; in particular, whenever that fallback call succeeds the caller
receives its hits and no exception. -/
theorem C7_hybrid_search_falls_back_to_global
    (systemSearch : SearchArgs → ℕ → Except String (List SearchRes))
    (roomSearch : Except String (List SearchRes)) (room_id : Option ℤ)
    (query_embedding : List ℚ) (doc_types : Option (List String)) (top_k : ℕ)
    (system_weight room_weight : ℚ) (e e' : String)
    (h : systemSearch ⟨query_embedding, doc_types, top_k⟩ 0 = .error e ∨
         (room_id.isSome ∧ roomSearch = .error e')) :
    search_documents_hybrid systemSearch roomSearch room_id query_embedding doc_types top_k
        system_weight room_weight
      = systemSearch ⟨query_embedding, doc_types, top_k⟩ 1
    ∧ ∀ hits, systemSearch ⟨query_embedding, doc_types, top_k⟩ 1 = .ok hits →
        search_documents_hybrid systemSearch roomSearch room_id query_embedding doc_types top_k
          system_weight room_weight = .ok hits := by
  have main : search_documents_hybrid systemSearch roomSearch room_id query_embedding doc_types
      top_k system_weight room_weight = systemSearch ⟨query_embedding, doc_types, top_k⟩ 1 := by
    rcases h with h | ⟨hr, hroom⟩
    · unfold search_documents_hybrid
      simp [h]
    · unfold search_documents_hybrid
      cases hsys : systemSearch ⟨query_embedding, doc_types, top_k⟩ 0 with
      | error e0 => simp [hsys]
      | ok sys =>
        cases room_id with
        | none => simp at hr
        | some rid => simp [hsys, hroom]
  exact ⟨main, fun hits hok => main.trans hok⟩

/-- C7 witness: with a global search whose first call raises, the hybrid
search returns the fallback call's hits. -/
theorem C7_hybrid_search_falls_back_to_global_witness :
    search_documents_hybrid c7system (Except.ok []) (some 7) [1/2] (some ["law"]) 3 (3/5) (2/5)
      = Except.ok [c1sys] :=
  (C7_hybrid_search_falls_back_to_global c7system (Except.ok []) (some 7) [1/2] (some ["law"]) 3
    (3/5) (2/5) "db down" "unused" (Or.inl rfl)).2 [c1sys] rfl

/-- C10: `update_chunk_settings` replaces exactly the child splitter's chunk
size and overlap — the updated state is `⟨chunk_size, chunk_overlap⟩` however
the chunker was configured before — while the parent chunks, their 500-char
standalone decision and hence which side (parent or children) is the
embedding target are unchanged by any settings update: a parent is standalone
iff its text is at most 500 characters, a hard-coded constant, for every
state. -/
theorem C10_update_chunk_settings_only_child_splitter
    (st st' : HierarchicalChunkerState) (chunk_size chunk_overlap : ℕ)
    (markdownSplit : String → List PDoc) (splitterFamily : ℕ → ℕ → String → List String)
    (markdown_content filename : String) :
    update_chunk_settings st chunk_size chunk_overlap = ⟨chunk_size, chunk_overlap⟩
    ∧ update_chunk_settings st chunk_size chunk_overlap
        = update_chunk_settings st' chunk_size chunk_overlap
    ∧ (chunk_markdown_st markdownSplit splitterFamily
          (update_chunk_settings st chunk_size chunk_overlap) markdown_content
          filename).parent_chunks
        = (chunk_markdown_st markdownSplit splitterFamily st markdown_content
            filename).parent_chunks
    ∧ (∀ p ∈ (chunk_markdown_st markdownSplit splitterFamily st markdown_content
          filename).parent_chunks,
        p.is_standalone = decide (p.page_content.length ≤ 500))
    ∧ (∀ v ∈ create_vector_ready_chunks (chunk_markdown_st markdownSplit splitterFamily st
          markdown_content filename),
        v.chunk_type = "parent" → v.is_for_embedding = decide (v.content_length ≤ 500)) := by
  refine ⟨rfl, rfl, rfl, ?_, ?_⟩
  · intro p hp
    simp only [chunk_markdown_st, chunk_markdown, List.mem_map] at hp
    obtain ⟨ip, _, rfl⟩ := hp
    rfl
  · intro v hv hparent
    simp only [create_vector_ready_chunks, List.mem_append, List.mem_map] at hv
    rcases hv with ⟨pm, hpm, rfl⟩ | ⟨cm, _, rfl⟩
    · simp only [chunk_markdown_st, chunk_markdown, List.mem_map] at hpm
      obtain ⟨ip, _, rfl⟩ := hpm
      rfl
    · simp only [childToVChunk] at hparent
      exact absurd hparent (by decide)

theorem takeWhile_digit_run :
    ∀ (ds post : List Char), (∀ c ∈ ds, c.isDigit) →
      (ds ++ '조' :: post).takeWhile Char.isDigit = ds
  | [], post, _ => by
    rw [List.nil_append]
    exact List.takeWhile_cons_of_neg (by decide)
  | d :: ds, post, h => by
    rw [List.cons_append, List.takeWhile_cons_of_pos (h d (List.mem_cons_self _ _)),
      takeWhile_digit_run ds post (fun c hc => h c (List.mem_cons_of_mem _ hc))]

theorem hasJeNJo_cons_iff {c : Char} {rest : List Char} (hc : c ≠ '제') :
    HasJeNJo (c :: rest) ↔ HasJeNJo rest := by
  constructor
  · rintro ⟨pre, ds, post, heq, hne, hdig⟩
    cases pre with
    | nil =>
      rw [List.nil_append, List.cons.injEq] at heq
      exact absurd heq.1 hc
    | cons p pre =>
      simp only [List.cons_append, List.cons.injEq] at heq
      exact ⟨pre, ds, post, heq.2, hne, hdig⟩
  · rintro ⟨pre, ds, post, heq, hne, hdig⟩
    exact ⟨c :: pre, ds, post, by rw [heq, List.cons_append], hne, hdig⟩

theorem hasJeNJo_je_fail {rest : List Char}
    (hfail : rest.takeWhile Char.isDigit = [] ∨
      (rest.takeWhile Char.isDigit ≠ [] ∧
        (rest.drop (rest.takeWhile Char.isDigit).length).head? ≠ some '조')) :
    HasJeNJo ('제' :: rest) ↔ HasJeNJo rest := by
  constructor
  · rintro ⟨pre, ds, post, heq, hne, hdig⟩
    cases pre with
    | nil =>
      rw [List.nil_append, List.cons.injEq] at heq
      have hrest : rest = ds ++ '조' :: post := heq.2
      have htw : rest.takeWhile Char.isDigit = ds := by
        rw [hrest]
        exact takeWhile_digit_run ds post hdig
      have hdrop : rest.drop (rest.takeWhile Char.isDigit).length = '조' :: post := by
        rw [htw, hrest]
        exact List.drop_left ds ('조' :: post)
      rcases hfail with h0 | ⟨_, h1⟩
      · exact absurd (htw.symm.trans h0) hne
      · exact absurd (by rw [hdrop]; rfl) h1
    | cons p pre =>
      simp only [List.cons_append, List.cons.injEq] at heq
      exact ⟨pre, ds, post, heq.2, hne, hdig⟩
  · rintro ⟨pre, ds, post, heq, hne, hdig⟩
    exact ⟨'제' :: pre, ds, post, by rw [heq, List.cons_append], hne, hdig⟩

theorem hasJeNJo_of_digit_head (rest : List Char)
    (h0 : rest.takeWhile Char.isDigit ≠ [])
    (h1 : (rest.drop (rest.takeWhile Char.isDigit).length).head? = some '조') :
    HasJeNJo ('제' :: rest) := by
  obtain ⟨t, ht⟩ := (List.takeWhile_prefix (p := Char.isDigit) (l := rest))
  have hdrop : rest.drop (rest.takeWhile Char.isDigit).length = t := by
    nth_rewrite 2 [← ht]
    exact List.drop_left _ t
  rw [hdrop] at h1
  cases t with
  | nil => simp at h1
  | cons x xs =>
    have hx : x = '조' := by simpa using h1
    subst hx
    refine ⟨[], rest.takeWhile Char.isDigit, xs, ?_, h0, ?_⟩
    · rw [List.nil_append]
      exact congrArg (List.cons '제') ht.symm
    · intro c hc
      exact List.mem_takeWhile_imp hc

theorem searchJeNJo_isSome_iff : ∀ cs : List Char, (searchJeNJo cs).isSome ↔ HasJeNJo cs
  | [] => by
    simp only [searchJeNJo, Option.isSome_none, Bool.false_eq_true, false_iff]
    rintro ⟨pre, ds, post, heq, -, -⟩
    cases pre <;> simp at heq
  | c :: rest => by
    by_cases hc : c = '제'
    · subst hc
      by_cases h0 : (rest.takeWhile Char.isDigit).isEmpty
      · have hs : searchJeNJo ('제' :: rest) = searchJeNJo rest := by
          simp [searchJeNJo, h0]
        rw [hs, searchJeNJo_isSome_iff rest]
        exact (hasJeNJo_je_fail (Or.inl (List.isEmpty_iff.mp h0))).symm
      · by_cases h1 : (rest.drop (rest.takeWhile Char.isDigit).length).head? = some '조'
        · have h1g : rest[(rest.takeWhile Char.isDigit).length]? = some '조' := by
            rw [← List.head?_drop]
            exact h1
          have hs : searchJeNJo ('제' :: rest)
              = some (digitsToNat (rest.takeWhile Char.isDigit)) := by
            simp [searchJeNJo, h0, h1g]
          rw [hs]
          simp only [Option.isSome_some, true_iff]
          exact hasJeNJo_of_digit_head rest (by simpa using h0) h1
        · have h1g : ¬ rest[(rest.takeWhile Char.isDigit).length]? = some '조' := by
            rw [← List.head?_drop]
            exact h1
          have hs : searchJeNJo ('제' :: rest) = searchJeNJo rest := by
            simp [searchJeNJo, h0, h1g]
          rw [hs, searchJeNJo_isSome_iff rest]
          exact (hasJeNJo_je_fail (Or.inr ⟨by simpa using h0, h1⟩)).symm
    · have hs : searchJeNJo (c :: rest) = searchJeNJo rest := by
        simp [searchJeNJo, hc]
      rw [hs, searchJeNJo_isSome_iff rest]
      exact (hasJeNJo_cons_iff hc).symm

theorem findFencedJson_eq_none : ∀ cs : List Char, '`' ∉ cs → findFencedJson cs = none
  | [], _ => rfl
  | c :: rest, h => by
    have hc : c ≠ '`' := fun hh => h (hh ▸ List.mem_cons_self c rest)
    have hpre : ("```json".data.isPrefixOf (c :: rest)) = false := by
      rw [show ("```json".data) = '`' :: "``json".data from rfl]
      simp [List.isPrefixOf, Ne.symm hc]
    have step : findFencedJson (c :: rest)
        = match (if ("```json".data.isPrefixOf (c :: rest)) = true then
            matchFenceBody ((c :: rest).drop 7) else none) with
          | some g => some g
          | none => findFencedJson rest := rfl
    rw [step, if_neg (by simp [hpre])]
    exact findFencedJson_eq_none rest (fun hm => h (List.mem_cons_of_mem _ hm))

theorem fenceAfterClose_append_false :
    ∀ mid : List Char, '`' ∉ mid → ∀ tail0 : List Char,
      fenceAfterClose (mid ++ '}' :: tail0) = false
  | [], _, tail0 => by
    simp [fenceAfterClose, List.dropWhile_cons, isPySpace, List.isPrefixOf]
  | c :: mid, h, tail0 => by
    have hc : c ≠ '`' := fun hh => h (hh ▸ List.mem_cons_self c mid)
    by_cases hws : isPySpace c = true
    · have := fenceAfterClose_append_false mid (fun hm => h (List.mem_cons_of_mem _ hm)) tail0
      simpa [fenceAfterClose, List.dropWhile_cons, hws] using this
    · simp [fenceAfterClose, List.dropWhile_cons, hws, List.isPrefixOf, Ne.symm hc]

theorem lazyCloseScan_through :
    ∀ (mid acc : List Char), '`' ∉ mid →
      lazyCloseScan acc (mid ++ '}' :: '\n' :: '`' :: '`' :: '`' :: [])
        = some (acc.reverse ++ mid)
  | [], acc, _ => by
    simp [lazyCloseScan, fenceAfterClose, List.dropWhile_cons, isPySpace, List.isPrefixOf]
  | c :: mid, acc, h => by
    have hcond : ¬(c = '}' ∧
        fenceAfterClose (mid ++ '}' :: '\n' :: '`' :: '`' :: '`' :: []) = true) := by
      rintro ⟨rfl, hf⟩
      rw [fenceAfterClose_append_false mid (fun hm => h (List.mem_cons_of_mem _ hm)) _] at hf
      exact Bool.noConfusion hf
    rw [List.cons_append]
    simp only [lazyCloseScan, if_neg hcond]
    rw [lazyCloseScan_through mid (c :: acc) (fun hm => h (List.mem_cons_of_mem _ hm))]
    simp

theorem extract_json_str_fenced (mid : List Char) (hmid : '`' ∉ mid) :
    extract_json_str ("```json\n" ++ ('{' :: (mid ++ ['}'])).asString ++ "\n```")
      = ('{' :: (mid ++ ['}'])).asString := by
  have hdata : ("```json\n" ++ ('{' :: (mid ++ ['}'])).asString ++ "\n```").data
      = '`' :: '`' :: '`' :: 'j' :: 's' :: 'o' :: 'n' :: '\n' ::
          '{' :: (mid ++ '}' :: '\n' :: '`' :: '`' :: '`' :: []) := by
    show ("```json\n".data ++ ('{' :: (mid ++ ['}'])) ++ "\n```".data) = _
    simp
  have hfence : matchFenceBody ('\n' :: '{' :: (mid ++ '}' :: '\n' :: '`' :: '`' :: '`' :: []))
      = some ('{' :: (mid ++ ['}'])) := by
    have hdw : ('\n' :: '{' :: (mid ++ '}' :: '\n' :: '`' :: '`' :: '`' :: [])).dropWhile
        isPySpace = '{' :: (mid ++ '}' :: '\n' :: '`' :: '`' :: '`' :: []) := by
      simp [List.dropWhile_cons, isPySpace]
    unfold matchFenceBody
    rw [hdw]
    show Option.map (fun inner => '{' :: (inner ++ ['}']))
        (lazyCloseScan [] (mid ++ '}' :: '\n' :: '`' :: '`' :: '`' :: []))
      = some ('{' :: (mid ++ ['}']))
    rw [lazyCloseScan_through mid [] hmid]
    simp
  have hfind : findFencedJson (("```json\n" ++ ('{' :: (mid ++ ['}'])).asString
      ++ "\n```").data) = some ('{' :: (mid ++ ['}'])) := by
    rw [hdata]
    rw [show findFencedJson ('`' :: '`' :: '`' :: 'j' :: 's' :: 'o' :: 'n' :: '\n' ::
        '{' :: (mid ++ '}' :: '\n' :: '`' :: '`' :: '`' :: []))
      = match matchFenceBody ('\n' :: '{' :: (mid ++ '}' :: '\n' :: '`' :: '`' :: '`' :: []))
          with
        | some g => some g
        | none => findFencedJson ('`' :: '`' :: 'j' :: 's' :: 'o' :: 'n' :: '\n' ::
            '{' :: (mid ++ '}' :: '\n' :: '`' :: '`' :: '`' :: []))
      from rfl]
    rw [hfence]
  unfold extract_json_str
  rw [hfind]

theorem dropWhile_all_space_append (pre : List Char) (l : List Char)
    (hpre : ∀ c ∈ pre, isPySpace c = true) :
    (pre ++ l).dropWhile isPySpace = l.dropWhile isPySpace := by
  induction pre with
  | nil => rfl
  | cons c pre ih =>
    rw [List.cons_append, List.dropWhile_cons, if_pos (hpre c (List.mem_cons_self _ _))]
    exact ih (fun c hc => hpre c (List.mem_cons_of_mem _ hc))

theorem extract_json_str_bare (pre s post : String)
    (hpre : ∀ c ∈ pre.data, isPySpace c = true)
    (hpost : ∀ c ∈ post.data, isPySpace c = true)
    (hhead : s.data.head? = some '{') (hlast : s.data.getLast? = some '}')
    (hbt : '`' ∉ s.data) :
    extract_json_str (pre ++ s ++ post) = s := by
  have hnobt : '`' ∉ (pre ++ s ++ post).data := by
    intro hm
    rw [show ((pre ++ s ++ post).data) = pre.data ++ s.data ++ post.data by simp] at hm
    rcases List.mem_append.1 hm with hm | hm
    · rcases List.mem_append.1 hm with hm | hm
      · exact absurd (hpre _ hm) (by decide)
      · exact hbt hm
    · exact absurd (hpost _ hm) (by decide)
  obtain ⟨t, hs⟩ : ∃ t, s.data = '{' :: t := by
    cases hsd : s.data with
    | nil => rw [hsd] at hhead; exact absurd hhead (by simp)
    | cons c t =>
      rw [hsd] at hhead
      simp only [List.head?_cons, Option.some.injEq] at hhead
      exact ⟨t, by rw [hhead]⟩
  obtain ⟨t', hs'⟩ : ∃ t', s.data.reverse = '}' :: t' := by
    cases hsr : s.data.reverse with
    | nil =>
      rw [← List.head?_reverse, hsr] at hlast
      exact absurd hlast (by simp)
    | cons c t' =>
      rw [← List.head?_reverse, hsr] at hlast
      simp only [List.head?_cons, Option.some.injEq] at hlast
      exact ⟨t', by rw [hlast]⟩
  have hdw1 : s.data.dropWhile isPySpace = s.data := by
    rw [hs, List.dropWhile_cons, if_neg (by decide)]
  have hdw2 : s.data.reverse.dropWhile isPySpace = s.data.reverse := by
    rw [hs', List.dropWhile_cons, if_neg (by decide)]
  have hsne : s.data ≠ [] := by
    rw [hs]
    exact List.cons_ne_nil _ _
  unfold extract_json_str
  rw [findFencedJson_eq_none _ hnobt]
  unfold pyStrip pyStripChars
  rw [show ((pre ++ s ++ post).data) = pre.data ++ (s.data ++ post.data) by simp]
  rw [dropWhile_all_space_append pre.data _ hpre]
  rw [show (s.data ++ post.data).dropWhile isPySpace = s.data ++ post.data from by
    rw [List.dropWhile_append]
    simp only [hdw1]
    rw [if_neg (by simpa [List.isEmpty_iff] using hsne)]]
  rw [List.reverse_append]
  rw [dropWhile_all_space_append post.data.reverse _
    (fun c hc => hpost c (by simpa using hc))]
  rw [hdw2, List.reverse_reverse]
  rfl

/-- C3 is false as stated: `c3text` is a bare JSON object surrounded by
prose; the object alone is valid JSON, but the extraction finds no fenced
block, falls back to the whole stripped response — which does not parse —
and stage 1 returns the empty candidate list instead of the object's
violations.  Only whitespace-surrounded bare objects are recovered. -/
theorem C3_prose_bare_json_counterexample :
    (c3text = "분석 결과: "
        ++ "\x7b\"violations\": [\x7b\"clause_number\": \"제3조\"\x7d]\x7d" ++ " 끝"
      ∧ json_loads "\x7b\"violations\": [\x7b\"clause_number\": \"제3조\"\x7d]\x7d"
          = some (.jobj [("violations", .jarr [.jobj [("clause_number", .jstr "제3조")]])]))
    ∧ json_loads (extract_json_str c3text) = none
    ∧ chain1_identify_violations c3text = [] :=
  ⟨⟨rfl, rfl⟩, rfl, rfl⟩

/-- C3 (amended): a JSON object in a fenced ```json block is extracted
exactly as capture group 1, so it parses to whatever the object itself
parses to; a bare braced object surrounded only by whitespace is recovered
by the strip fallback and parses likewise; but a bare object surrounded by
prose is not recovered — whenever the extracted text fails to parse, stage 1
degrades to the empty candidate list and stage 3 substitutes the fallback
verdict, and both stages are total functions (no model-output-format error
escapes the pipeline). -/
theorem C3_tolerant_json_extraction
    (mid : List Char) (hmid : '`' ∉ mid) (v : JVal)
    (hv : json_loads (('{' :: (mid ++ ['}'])).asString) = some v)
    (pre s post : String)
    (hpre : ∀ c ∈ pre.data, isPySpace c = true)
    (hpost : ∀ c ∈ post.data, isPySpace c = true)
    (hhead : s.data.head? = some '{') (hlast : s.data.getLast? = some '}')
    (hbt : '`' ∉ s.data) (w : JVal) (hw : json_loads s = some w)
    (bad : String) (hbad : json_loads (extract_json_str bad) = none)
    (vd : ViolationWithLaws) :
    json_loads (extract_json_str ("```json\n" ++ ('{' :: (mid ++ ['}'])).asString ++ "\n```"))
        = some v
    ∧ json_loads (extract_json_str (pre ++ s ++ post)) = some w
    ∧ chain1_identify_violations bad = []
    ∧ chain3_entry bad vd = chain3_fallback vd := by
  refine ⟨?_, ?_, ?_, ?_⟩
  · rw [extract_json_str_fenced mid hmid]
    exact hv
  · rw [extract_json_str_bare pre s post hpre hpost hhead hlast hbt]
    exact hw
  · unfold chain1_identify_violations
    rw [hbad]
  · unfold chain3_entry
    rw [hbad]

theorem C3_tolerant_json_extraction_witness :
    json_loads (extract_json_str ("```json\n"
        ++ ('{' :: ("\"a\": \"b\"".data ++ ['}'])).asString ++ "\n```"))
      = some (.jobj [("a", .jstr "b")])
    ∧ json_loads (extract_json_str (" " ++ "\x7b\"c\": true\x7d" ++ "\n"))
      = some (.jobj [("c", .jbool true)])
    ∧ chain1_identify_violations "oops" = []
    ∧ chain3_entry "oops" ⟨[], [], 0⟩ = chain3_fallback ⟨[], [], 0⟩ :=
  C3_tolerant_json_extraction "\"a\": \"b\"".data (by decide)
    (.jobj [("a", .jstr "b")]) rfl
    " " "\x7b\"c\": true\x7d" "\n" (by decide) (by decide) rfl rfl (by decide)
    (.jobj [("c", .jbool true)]) rfl
    "oops" rfl ⟨[], [], 0⟩

theorem find?_map_setKey_same (k : String) (v : JVal) :
    ∀ fields : List (String × JVal), fields.any (fun kv => kv.1 == k) = true →
      ((fields.map (fun kv => if kv.1 == k then (k, v) else kv)).find?
        (fun kv => kv.1 == k)) = some (k, v)
  | [], h => by simp at h
  | kv :: fs, h => by
    by_cases hk : (kv.1 == k) = true
    · simp [List.find?, hk]
    · have h' : fs.any (fun kv => kv.1 == k) = true := by
        simpa [List.any_cons, hk] using h
      rw [List.map_cons, if_neg hk, @List.find?_cons_of_neg _ (fun x => x.1 == k) kv _ hk]
      exact find?_map_setKey_same k v fs h'

theorem find?_map_setKey_ne (k k' : String) (v : JVal) (h : k' ≠ k) :
    ∀ fields : List (String × JVal),
      ((fields.map (fun kv => if kv.1 == k then (k, v) else kv)).find?
        (fun kv => kv.1 == k'))
        = fields.find? (fun kv => kv.1 == k')
  | [] => rfl
  | kv :: fs => by
    have hkk' : (k == k') = false := beq_eq_false_iff_ne.mpr (fun hh => h hh.symm)
    by_cases hk : (kv.1 == k) = true
    · have hkv : kv.1 = k := by simpa using hk
      have h2 : (kv.1 == k') = false := by rw [hkv]; exact hkk'
      rw [List.map_cons, if_pos hk,
        @List.find?_cons_of_neg _ (fun x => x.1 == k') (k, v) _ (by simp [hkk']),
        @List.find?_cons_of_neg _ (fun x => x.1 == k') kv _ (by simp [h2])]
      exact find?_map_setKey_ne k k' v h fs
    · by_cases hk' : (kv.1 == k') = true
      · rw [List.map_cons, if_neg hk,
          @List.find?_cons_of_pos _ (fun x => x.1 == k') kv _ hk',
          @List.find?_cons_of_pos _ (fun x => x.1 == k') kv _ hk']
      · rw [List.map_cons, if_neg hk,
          @List.find?_cons_of_neg _ (fun x => x.1 == k') kv _ hk',
          @List.find?_cons_of_neg _ (fun x => x.1 == k') kv _ hk']
        exact find?_map_setKey_ne k k' v h fs

theorem getKeyJ_setKeyJ_same (fields : List (String × JVal)) (k : String) (v : JVal) :
    getKeyJ (setKeyJ fields k v) k = some v := by
  unfold setKeyJ getKeyJ
  by_cases h : fields.any (fun kv => kv.1 == k) = true
  · rw [if_pos h, find?_map_setKey_same k v fields h]
    rfl
  · rw [if_neg h]
    have hnone : fields.find? (fun kv => kv.1 == k) = none := by
      rw [List.find?_eq_none]
      intro x hx hpx
      exact h (List.any_eq_true.mpr ⟨x, hx, hpx⟩)
    rw [List.find?_append, hnone]
    simp [List.find?]

theorem getKeyJ_setKeyJ_ne (fields : List (String × JVal)) (k k' : String) (v : JVal)
    (h : k' ≠ k) : getKeyJ (setKeyJ fields k v) k' = getKeyJ fields k' := by
  unfold setKeyJ getKeyJ
  by_cases hany : fields.any (fun kv => kv.1 == k) = true
  · rw [if_pos hany, find?_map_setKey_ne k k' v h fields]
  · rw [if_neg hany, List.find?_append]
    have hone : List.find? (fun kv => kv.1 == k') [(k, v)] = none := by
      simp [List.find?, beq_eq_false_iff_ne.mpr (fun hh : k = k' => h hh.symm)]
    rw [hone]
    cases fields.find? (fun kv => kv.1 == k') <;> rfl

/-- C5: the post-parse loop of chain stage 1 assigns each candidate its
zero-based `chunk_index` without dropping any: the output has one entry per
parsed violation, each keeping every other key unchanged while gaining
`chunk_index`; the source's scanner finds the clause pattern 제N조 exactly
when the locator string contains it, the first match 제N조 yields
`chunk_index = N - 1`, and an unresolvable locator yields `chunk_index = 0`. -/
theorem C5_chain1_chunk_index_default_zero
    (response_text : String) (fields : List (String × JVal)) (items : List JVal)
    (hparse : json_loads (extract_json_str response_text) = some (.jobj fields))
    (hviol : getKeyJ fields "violations" = some (.jarr items))
    (hwf : items.all violationWellFormed = true) :
    (chain1_identify_violations response_text).length = items.length
    ∧ (∀ i (hi : i < items.length) (f : List (String × JVal)),
        items.get ⟨i, hi⟩ = .jobj f →
        ∃ ho : i < (chain1_identify_violations response_text).length,
        ∃ f' : List (String × JVal),
          (chain1_identify_violations response_text).get ⟨i, ho⟩ = .jobj f'
          ∧ (∀ k, k ≠ "chunk_index" → getKeyJ f' k = getKeyJ f k)
          ∧ getKeyJ f' "chunk_index"
              = some (.jnum ((chunkIndexOf (getStrD f "clause_number") : ℤ) : ℚ)))
    ∧ (∀ (s : String) (n : ℕ), searchJeNJo s.data = some n → chunkIndexOf s = (n : ℤ) - 1)
    ∧ (∀ s : String, searchJeNJo s.data = none → chunkIndexOf s = 0)
    ∧ (∀ s : String, (searchJeNJo s.data).isSome ↔ HasJeNJo s.data) := by
  have hchain : chain1_identify_violations response_text
      = items.map (fun v =>
          match v with
          | .jobj f => .jobj (assignChunkIndex f)
          | other => other) := by
    unfold chain1_identify_violations
    rw [hparse]
    dsimp only
    rw [hviol]
    dsimp only
    rw [if_pos hwf]
  refine ⟨by rw [hchain]; exact List.length_map .., ?_, ?_, ?_, ?_⟩
  · intro i hi f hf
    refine ⟨by rw [hchain]; simpa using hi, assignChunkIndex f, ?_, ?_, ?_⟩
    · have : (chain1_identify_violations response_text).get
          ⟨i, by rw [hchain]; simpa using hi⟩
          = (fun v =>
              match v with
              | JVal.jobj f => JVal.jobj (assignChunkIndex f)
              | other => other) (items.get ⟨i, hi⟩) := by
        simp [hchain, List.get_eq_getElem, List.getElem_map]
      rw [this, hf]
    · intro k hk
      exact getKeyJ_setKeyJ_ne f "chunk_index" k _ hk
    · exact getKeyJ_setKeyJ_same f "chunk_index" _
  · intro s n hs
    unfold chunkIndexOf
    rw [hs]
  · intro s hs
    unfold chunkIndexOf
    rw [hs]
  · exact fun s => searchJeNJo_isSome_iff s.data

/-- C5 witness: in a fenced stage-1 response with two candidates, both
survive; 제3조 resolves to chunk_index 2 while the unresolvable 서문 locator
defaults to chunk_index 0 and does not contain the clause pattern. -/
theorem C5_chain1_chunk_index_default_zero_witness :
    (chain1_identify_violations c5resp).length = 2
    ∧ (∃ f' : List (String × JVal),
        (chain1_identify_violations c5resp).get ⟨0, by decide⟩ = .jobj f'
        ∧ getKeyJ f' "clause_number" = some (.jstr "제3조")
        ∧ getKeyJ f' "chunk_index" = some (.jnum ((2 : ℤ) : ℚ)))
    ∧ chunkIndexOf "서문" = 0
    ∧ ¬ HasJeNJo "서문".data := by
  obtain ⟨hlen, hper, _, hnone, hiff⟩ :=
    C5_chain1_chunk_index_default_zero c5resp c5fields c5items rfl rfl rfl
  obtain ⟨ho, f', hget, hother, hidx⟩ := hper 0 (by decide)
    [("clause_number", .jstr "제3조"), ("risk_level", .jstr "높음")] rfl
  refine ⟨hlen.trans rfl, ⟨f', hget, ?_, ?_⟩, hnone "서문" rfl, ?_⟩
  · rw [hother "clause_number" (by decide)]
    rfl
  · rw [hidx]
    rfl
  · intro hh
    have := (hiff "서문").2 hh
    rw [show searchJeNJo "서문".data = none from rfl] at this
    simp at this

theorem mem_enumFrom_intro {α : Type _} :
    ∀ (l : List α) (n k : ℕ) (hk : k < l.length), (n + k, l.get ⟨k, hk⟩) ∈ List.enumFrom n l
  | _ :: _, n, 0, _ => by
    simp [List.enumFrom]
  | x :: l, n, k + 1, hk => by
    simp only [List.enumFrom, List.mem_cons]
    refine Or.inr ?_
    have := mem_enumFrom_intro l (n + 1) k (by simpa using Nat.lt_of_succ_lt_succ hk)
    simpa [Nat.add_assoc, Nat.add_comm 1 k] using this

theorem mem_enum_intro {α : Type _} (l : List α) (k : ℕ) (hk : k < l.length) :
    (k, l.get ⟨k, hk⟩) ∈ l.enum := by
  simpa [List.enum] using mem_enumFrom_intro l 0 k hk

theorem mem_enumFrom_elim {α : Type _} :
    ∀ (l : List α) (n : ℕ) (x : ℕ × α), x ∈ List.enumFrom n l →
      ∃ k, ∃ hk : k < l.length, x = (n + k, l.get ⟨k, hk⟩)
  | x :: l, n, y, h => by
    simp only [List.enumFrom, List.mem_cons] at h
    rcases h with rfl | h
    · exact ⟨0, by simp, by simp⟩
    · obtain ⟨k, hk, rfl⟩ := mem_enumFrom_elim l (n + 1) y h
      exact ⟨k + 1, by simpa using Nat.succ_lt_succ hk,
        by simp [Nat.add_assoc, Nat.add_comm 1 k]⟩

theorem mem_enum_elim {α : Type _} (l : List α) (x : ℕ × α) (h : x ∈ l.enum) :
    ∃ k, ∃ hk : k < l.length, x = (k, l.get ⟨k, hk⟩) := by
  have := mem_enumFrom_elim l 0 x (by simpa [List.enum] using h)
  simpa using this

/-- C2: for every segmented document and every parent chunk with non-empty
text, exactly one of {the parent entry, any of its child entries} is an
embedding target — never both, never neither.  A parent whose text exceeds
the 500-character threshold is marked not-for-embedding and has at least one
child (given that the child splitter returns something for oversized text),
each child marked for embedding; a parent at or below the threshold has no
children and is itself marked for embedding. -/
theorem C2_exactly_one_embedding_target
    (markdownSplit : String → List PDoc) (childSplit : String → List String)
    (markdown_content filename : String)
    (hsplit : ∀ s : String, 500 < s.length → childSplit s ≠ [])
    (i : ℕ)
    (hi : i < (chunk_markdown markdownSplit childSplit markdown_content
        filename).parent_chunks.length)
    (hne : ((chunk_markdown markdownSplit childSplit markdown_content
        filename).parent_chunks.get ⟨i, hi⟩).page_content ≠ "") :
    ∃ pe ∈ vchunksOf markdownSplit childSplit markdown_content filename,
      pe.chunk_id = CId.parent filename i ∧ pe.chunk_type = "parent"
      ∧ (∀ e ∈ vchunksOf markdownSplit childSplit markdown_content filename,
          e.chunk_id = CId.parent filename i → e = pe)
      ∧ Xor' (pe.is_for_embedding = true)
          (∃ c ∈ vchunksOf markdownSplit childSplit markdown_content filename,
            isChildOf (CId.parent filename i) c ∧ c.is_for_embedding = true)
      ∧ (500 < ((chunk_markdown markdownSplit childSplit markdown_content
            filename).parent_chunks.get ⟨i, hi⟩).page_content.length →
          pe.is_for_embedding = false
          ∧ ∃ c ∈ vchunksOf markdownSplit childSplit markdown_content filename,
              isChildOf (CId.parent filename i) c)
      ∧ (((chunk_markdown markdownSplit childSplit markdown_content
            filename).parent_chunks.get ⟨i, hi⟩).page_content.length ≤ 500 →
          pe.is_for_embedding = true
          ∧ ¬ ∃ c ∈ vchunksOf markdownSplit childSplit markdown_content filename,
              isChildOf (CId.parent filename i) c)
      ∧ (∀ c ∈ vchunksOf markdownSplit childSplit markdown_content filename,
          isChildOf (CId.parent filename i) c → c.is_for_embedding = true) := by
  set parents := (markdownSplit (preprocessClauseHeaders markdown_content)).map
      restoreClauseHeader with hparents
  have hpc : (chunk_markdown markdownSplit childSplit markdown_content filename).parent_chunks
      = parents.enum.map (fun ip => mkParentMeta filename ip.1 ip.2) := rfl
  have hcc : (chunk_markdown markdownSplit childSplit markdown_content filename).child_chunks
      = parents.enum.flatMap (fun ip =>
          if 500 < ip.2.page_content.length then
            ((childSplit ip.2.page_content).enum).map
              (fun jc => mkChildMeta filename ip.1 ip.2 jc.1 jc.2)
          else []) := rfl
  have hip : i < parents.length := by
    simpa [hpc] using hi
  have hgetp : (chunk_markdown markdownSplit childSplit markdown_content
      filename).parent_chunks.get ⟨i, hi⟩ = mkParentMeta filename i (parents.get ⟨i, hip⟩) := by
    simp [hpc, List.get_eq_getElem, List.getElem_map, List.getElem_enum]
  have hout : vchunksOf markdownSplit childSplit markdown_content filename
      = ((chunk_markdown markdownSplit childSplit markdown_content
          filename).parent_chunks.map parentToVChunk)
        ++ ((chunk_markdown markdownSplit childSplit markdown_content
          filename).child_chunks.map childToVChunk) := rfl
  -- the parent entry for index i
  refine ⟨parentToVChunk (mkParentMeta filename i (parents.get ⟨i, hip⟩)), ?_, rfl, rfl,
    ?_, ?_, ?_, ?_, ?_⟩
  · rw [hout]
    refine List.mem_append_left _ (List.mem_map_of_mem _ ?_)
    rw [hpc]
    exact List.mem_map_of_mem _ (mem_enum_intro parents i hip)
  · -- uniqueness of the entry with this chunk_id
    intro e he heid
    rw [hout] at he
    rcases List.mem_append.1 he with hl | hr
    · obtain ⟨pm, hpm, rfl⟩ := List.mem_map.1 hl
      rw [hpc] at hpm
      obtain ⟨ip, hip2, rfl⟩ := List.mem_map.1 hpm
      obtain ⟨k, hk, rfl⟩ := mem_enum_elim parents ip hip2
      have : k = i := by
        simpa [parentToVChunk, mkParentMeta, CId.parent.injEq] using heid
      subst this
      rfl
    · obtain ⟨cm, hcm, rfl⟩ := List.mem_map.1 hr
      rw [hcc] at hcm
      obtain ⟨ip, _, hcm2⟩ := List.mem_flatMap.1 hcm
      by_cases hb : 500 < ip.2.page_content.length
      · rw [if_pos hb] at hcm2
        obtain ⟨jc, _, rfl⟩ := List.mem_map.1 hcm2
        exact absurd heid (by simp [childToVChunk, mkChildMeta])
      · rw [if_neg hb] at hcm2
        exact absurd hcm2 (List.not_mem_nil _)
  · -- exactly one target
    by_cases hbig : 500 < (parents.get ⟨i, hip⟩).page_content.length
    · refine Or.inr ⟨?_, ?_⟩
      · obtain ⟨c0, cs0, hcs⟩ :=
          List.exists_cons_of_ne_nil (hsplit _ hbig)
        refine ⟨childToVChunk (mkChildMeta filename i (parents.get ⟨i, hip⟩) 0 c0), ?_,
          ⟨rfl, rfl⟩, rfl⟩
        rw [hout]
        refine List.mem_append_right _ (List.mem_map_of_mem _ ?_)
        rw [hcc]
        refine List.mem_flatMap.2 ⟨(i, parents.get ⟨i, hip⟩), mem_enum_intro parents i hip, ?_⟩
        dsimp only
        rw [if_pos hbig, hcs]
        exact List.mem_map_of_mem _ (mem_enum_intro (c0 :: cs0) 0 (Nat.succ_pos _))
      · exact fun h => absurd (of_decide_eq_true h) (Nat.not_le.mpr hbig)
    · refine Or.inl ⟨?_, ?_⟩
      · exact decide_eq_true (Nat.not_lt.mp hbig)
      · rintro ⟨c, hc, ⟨hct, hcp⟩, -⟩
        rw [hout] at hc
        rcases List.mem_append.1 hc with hl | hr
        · obtain ⟨pm, _, rfl⟩ := List.mem_map.1 hl
          exact absurd hct (by simp [parentToVChunk])
        · obtain ⟨cm, hcm, rfl⟩ := List.mem_map.1 hr
          rw [hcc] at hcm
          obtain ⟨ip, hipm, hcm2⟩ := List.mem_flatMap.1 hcm
          by_cases hb : 500 < ip.2.page_content.length
          · rw [if_pos hb] at hcm2
            obtain ⟨jc, _, rfl⟩ := List.mem_map.1 hcm2
            obtain ⟨k, hk, rfl⟩ := mem_enum_elim parents ip hipm
            have hk_eq : k = i := by
              simpa [childToVChunk, mkChildMeta, CId.parent.injEq] using hcp
            subst hk_eq
            exact absurd hb hbig
          · rw [if_neg hb] at hcm2
            exact absurd hcm2 (List.not_mem_nil _)
  · -- oversized parents: not-for-embedding, at least one child
    intro hbig
    rw [hgetp] at hbig
    have hbig2 : 500 < (parents.get ⟨i, hip⟩).page_content.length := hbig
    constructor
    · exact decide_eq_false (Nat.not_le.mpr hbig2)
    · obtain ⟨c0, cs0, hcs⟩ := List.exists_cons_of_ne_nil (hsplit _ hbig2)
      refine ⟨childToVChunk (mkChildMeta filename i (parents.get ⟨i, hip⟩) 0 c0), ?_, rfl, rfl⟩
      rw [hout]
      refine List.mem_append_right _ (List.mem_map_of_mem _ ?_)
      rw [hcc]
      refine List.mem_flatMap.2 ⟨(i, parents.get ⟨i, hip⟩), mem_enum_intro parents i hip, ?_⟩
      dsimp only
      rw [if_pos hbig2, hcs]
      exact List.mem_map_of_mem _ (mem_enum_intro (c0 :: cs0) 0 (Nat.succ_pos _))
  · -- small parents: embeddable, no children
    intro hle
    rw [hgetp] at hle
    have hle2 : (parents.get ⟨i, hip⟩).page_content.length ≤ 500 := hle
    constructor
    · exact decide_eq_true hle2
    · rintro ⟨c, hc, hct, hcp⟩
      rw [hout] at hc
      rcases List.mem_append.1 hc with hl | hr
      · obtain ⟨pm, _, rfl⟩ := List.mem_map.1 hl
        exact absurd hct (by simp [parentToVChunk])
      · obtain ⟨cm, hcm, rfl⟩ := List.mem_map.1 hr
        rw [hcc] at hcm
        obtain ⟨ip, hipm, hcm2⟩ := List.mem_flatMap.1 hcm
        by_cases hb : 500 < ip.2.page_content.length
        · rw [if_pos hb] at hcm2
          obtain ⟨jc, _, rfl⟩ := List.mem_map.1 hcm2
          obtain ⟨k, hk, rfl⟩ := mem_enum_elim parents ip hipm
          have hk_eq : k = i := by
            simpa [childToVChunk, mkChildMeta, CId.parent.injEq] using hcp
          subst hk_eq
          exact absurd hb (Nat.not_lt.mpr hle)
        · rw [if_neg hb] at hcm2
          exact absurd hcm2 (List.not_mem_nil _)
  · -- every child entry is an embedding target
    intro c hc hchild
    rw [hout] at hc
    rcases List.mem_append.1 hc with hl | hr
    · obtain ⟨pm, _, rfl⟩ := List.mem_map.1 hl
      exact absurd hchild.1 (by simp [parentToVChunk])
    · obtain ⟨cm, _, rfl⟩ := List.mem_map.1 hr
      rfl

/-- C2 witness: for the 600-character parent (index 1) of a stubbed
segmentation, the parent entry is not an embedding target and one of its
child entries is. -/
theorem C2_exactly_one_embedding_target_witness :
    ∃ pe ∈ vchunksOf c2mdSplit c2childSplit "본문" "doc",
      pe.chunk_id = CId.parent "doc" 1 ∧ pe.chunk_type = "parent"
      ∧ pe.is_for_embedding = false
      ∧ ∃ c ∈ vchunksOf c2mdSplit c2childSplit "본문" "doc",
          isChildOf (CId.parent "doc" 1) c ∧ c.is_for_embedding = true := by
  obtain ⟨pe, hmem, hid, htype, _, _, hbig, _, hall⟩ :=
    C2_exactly_one_embedding_target c2mdSplit c2childSplit "본문" "doc"
      (fun s _ => by simp [c2childSplit]) 1 (by decide) (by decide)
  obtain ⟨hembF, c, hc, hchild⟩ := hbig (by decide)
  exact ⟨pe, hmem, hid, htype, hembF, c, hc, hchild, hall c hc hchild⟩

theorem filterMap_if {α β : Type _} (p : α → Prop) [DecidablePred p] (f : α → β) :
    ∀ l : List α,
      l.filterMap (fun x => if p x then some (f x) else none)
        = (l.filter (fun x => decide (p x))).map f := by
  intro l
  induction l with
  | nil => rfl
  | cons x l ih =>
    by_cases hx : p x
    · simp [hx, ih]
    · simp [hx, ih]

theorem snd_mem_enumFrom {α : Type _} :
    ∀ (l : List α) (n : ℕ) (x : ℕ × α), x ∈ List.enumFrom n l → x.2 ∈ l
  | _ :: l, n, x, h => by
    simp only [List.enumFrom, List.mem_cons] at h
    rcases h with rfl | h
    · exact List.mem_cons_self _ _
    · exact List.mem_cons_of_mem _ (snd_mem_enumFrom l (n + 1) x h)

/-- C6 is false as stated: on eleven heading-only paragraphs (trigger: the
header pass yields zero sections) whose first paragraph is short and whose
other ten are longer than 50 characters, the code emits 9 sections — it
considers only the first ten paragraphs and then filters — while the claimed
order (keep all long paragraphs, cap the output at 10) would emit 10. -/
theorem C6_fallback_cap_before_filter_counterexample :
    splitSectionsLoop (pySplit c6Input "\n") ⟨"서문", "", none⟩ [] = []
    ∧ (split_contract_into_sections c6Input).length = 9
    ∧ (fallbackParagraphSectionsClaimed c6Input).length = 10
    ∧ split_contract_into_sections c6Input ≠ fallbackParagraphSectionsClaimed c6Input := by
  refine ⟨rfl, rfl, rfl, ?_⟩
  intro heq
  have hl := congrArg List.length heq
  have h9 : (split_contract_into_sections c6Input).length = 9 := rfl
  have h10 : (fallbackParagraphSectionsClaimed c6Input).length = 10 := rfl
  rw [h9, h10] at hl
  exact absurd hl (by decide)

/-- C6 (amended): whenever the header-based pass over a document's text
produces zero sections, the splitter falls back to paragraphs: it splits the
raw text on blank lines, strips each paragraph and drops empty ones, then
considers only the **first ten** paragraphs and keeps those longer than 50
characters (numbered by their 1-based position among those first ten), each
emitted as a parent section; every emitted section is parent-typed, longer
than 50 characters and one of the first ten paragraphs. -/
theorem C6_zero_sections_paragraph_fallback (markdown_content : String)
    (h : splitSectionsLoop (pySplit markdown_content "\n") ⟨"서문", "", none⟩ [] = []) :
    split_contract_into_sections markdown_content = fallbackParagraphSections markdown_content
    ∧ fallbackParagraphSections markdown_content
        = (((((pySplit markdown_content "\n\n").map pyStrip).filter
              (fun p => p ≠ "")).take 10).enum.filter
            (fun ip => decide (50 < ip.2.length))).map
            (fun ip => ⟨"조항 " ++ toString (ip.1 + 1), ip.2, some "parent"⟩)
    ∧ ∀ sec ∈ split_contract_into_sections markdown_content,
        sec.chunk_type = some "parent" ∧ 50 < sec.content.length
        ∧ sec.content ∈ (((pySplit markdown_content "\n\n").map pyStrip).filter
            (fun p => p ≠ "")).take 10 := by
  have h1 : split_contract_into_sections markdown_content
      = fallbackParagraphSections markdown_content := by
    unfold split_contract_into_sections
    rw [h]
    simp
  have h2 : fallbackParagraphSections markdown_content
      = (((((pySplit markdown_content "\n\n").map pyStrip).filter
            (fun p => p ≠ "")).take 10).enum.filter
          (fun ip => decide (50 < ip.2.length))).map
          (fun ip => ⟨"조항 " ++ toString (ip.1 + 1), ip.2, some "parent"⟩) := by
    unfold fallbackParagraphSections
    exact filterMap_if (fun ip : ℕ × String => 50 < ip.2.length) _ _
  refine ⟨h1, h2, ?_⟩
  intro sec hsec
  rw [h1, h2] at hsec
  obtain ⟨ip, hip, rfl⟩ := List.mem_map.1 hsec
  have hfil := List.mem_filter.1 hip
  refine ⟨rfl, by simpa using hfil.2, ?_⟩
  exact snd_mem_enumFrom _ 0 ip (by simpa [List.enum] using hfil.1)

/-- C6 witness: on the eleven-heading-paragraph input the fallback fires and
the splitter's output is exactly the fallback's nine sections. -/
theorem C6_zero_sections_paragraph_fallback_witness :
    split_contract_into_sections c6Input = fallbackParagraphSections c6Input
    ∧ (split_contract_into_sections c6Input).length = 9 :=
  ⟨(C6_zero_sections_paragraph_fallback c6Input rfl).1, by
    rw [(C6_zero_sections_paragraph_fallback c6Input rfl).1]
    rfl⟩

theorem embedMergePass_map_core (embeds : List (List ℚ)) (ds : List EmbChunk) :
    ∀ k : ℕ, (embedMergePass embeds k ds).map embedCore = ds.map embedCore := by
  induction ds with
  | nil => intro k; rfl
  | cons d ds ih =>
    intro k
    cases ht : isEmbeddingTarget d with
    | true =>
      cases hk : embeds[k]? with
      | some v =>
        by_cases hb : pyStrip d.content ≠ ""
        · simp [embedMergePass, ht, hk, hb, ih, embedCore, embedSuccess]
        · simp [embedMergePass, ht, hk, hb, ih, embedCore, embedBlankFail]
      | none => simp [embedMergePass, ht, hk, ih, embedCore, embedBlankFail]
    | false => simp [embedMergePass, ht, ih, embedCore, parentPassThrough]

/-- C9 is false as stated on a blank chunk: a chunk without an
`is_for_embedding` key whose content is blank is classified as an embedding
target, but its text is filtered out before the batch call and the chunk
comes back with no vector — it is not sent to the batch embedding call. -/
theorem C9_blank_default_chunk_counterexample :
    c9doc.is_for_embedding = none
    ∧ embed_chunked_documents (fun _ => .ok [[1]]) [c9doc] = [c9doc]
    ∧ batch_texts [c9doc] = []
    ∧ (embed_chunked_documents (fun _ => .ok [[1]]) [c9doc]).map (fun d => d.embedding)
        = [none] :=
  ⟨rfl, rfl, rfl, rfl⟩

/-- C9 (amended): `embed_chunked_documents` preserves the number and order of
its input chunks — positionally, every output chunk keeps its input's
content, `is_for_embedding` value and chunk type — and a chunk whose
`is_for_embedding` key is absent is classified as an embedding target (the
flag defaults to `True`); its content is handed to the batch embedding call
provided it is non-blank after stripping (a blank-content chunk is returned
with a null vector instead). -/
theorem C9_embed_chunked_documents_order_and_default
    (embedCall : List String → Except String (List (List ℚ))) (docs : List EmbChunk) :
    (embed_chunked_documents embedCall docs).map embedCore = docs.map embedCore
    ∧ (embed_chunked_documents embedCall docs).length = docs.length
    ∧ ∀ i (hi : i < docs.length),
        (docs.get ⟨i, hi⟩).is_for_embedding = none →
          isEmbeddingTarget (docs.get ⟨i, hi⟩) = true
          ∧ (pyStrip (docs.get ⟨i, hi⟩).content ≠ "" →
              (docs.get ⟨i, hi⟩).content ∈ batch_texts docs) := by
  have hcore : (embed_chunked_documents embedCall docs).map embedCore = docs.map embedCore := by
    unfold embed_chunked_documents
    by_cases h0 : docs.isEmpty
    · rw [if_pos h0, List.isEmpty_iff.mp h0]
    · rw [if_neg h0]
      by_cases h1 : (docs.filter isEmbeddingTarget).isEmpty
      · rw [if_pos h1]
        have hall : ∀ d ∈ docs, ¬ isEmbeddingTarget d = true := by
          intro d hd h
          have := List.filter_eq_nil_iff.mp (List.isEmpty_iff.mp h1) d hd
          exact absurd h (by simpa using this)
        have hfilter : docs.filter (fun d => !isEmbeddingTarget d) = docs := by
          apply List.filter_eq_self.mpr
          intro d hd
          simp [Bool.eq_false_iff.mpr (hall d hd)]
        rw [hfilter, List.map_map]
        rfl
      · rw [if_neg h1]
        by_cases h2 : (batch_texts docs).isEmpty
        · rw [if_pos h2]
        · rw [if_neg h2]
          cases embedCall (batch_texts docs) with
          | error e =>
            rw [List.map_map]
            rfl
          | ok embeds => exact embedMergePass_map_core embeds docs 0
  refine ⟨hcore, ?_, ?_⟩
  · have := congrArg List.length hcore
    simpa using this
  · intro i hi hnone
    have htarget : isEmbeddingTarget (docs.get ⟨i, hi⟩) = true := by
      unfold isEmbeddingTarget
      rw [hnone]
      rfl
    refine ⟨htarget, fun hblank => ?_⟩
    have hmem : docs.get ⟨i, hi⟩ ∈ docs := List.get_mem docs i hi
    have h1 : docs.get ⟨i, hi⟩ ∈ docs.filter isEmbeddingTarget :=
      List.mem_filter.mpr ⟨hmem, htarget⟩
    refine List.mem_filter.mpr ⟨List.mem_map_of_mem _ h1, ?_⟩
    simpa using hblank

/-- C9 witness: a chunk with no `is_for_embedding` key and non-blank content
is an embedding target and its content reaches the batch call; the output
has one entry per input. -/
theorem C9_embed_chunked_documents_order_and_default_witness :
    isEmbeddingTarget ⟨"법령 본문", none, none, none, none, none, none⟩ = true
    ∧ "법령 본문" ∈ batch_texts [⟨"법령 본문", none, none, none, none, none, none⟩]
    ∧ (embed_chunked_documents (fun ts => .ok (ts.map (fun _ => [1])))
        [⟨"법령 본문", none, none, none, none, none, none⟩]).length = 1 := by
  obtain ⟨_, hlen, hcls⟩ := C9_embed_chunked_documents_order_and_default
    (fun ts => .ok (ts.map (fun _ => [1]))) [⟨"법령 본문", none, none, none, none, none, none⟩]
  obtain ⟨ht, hmem⟩ := hcls 0 (by decide) rfl
  exact ⟨ht, hmem (by decide), hlen.trans rfl⟩

theorem lexAmended_iff_weightedDesc {x y : ℕ × SearchRes} (h : x.1 < y.1) :
    lexAmended x y ↔ weightedDesc x.2 y.2 := by
  unfold lexAmended weightedDesc
  constructor
  · rintro (hlt | ⟨heq, _⟩)
    · exact le_of_lt hlt
    · exact le_of_eq heq.symm
  · intro hle
    rcases lt_or_eq_of_le hle with hlt | heq
    · exact Or.inl hlt
    · exact Or.inr ⟨heq.symm, le_of_lt h⟩

theorem map_snd_orderedInsert (x : ℕ × SearchRes) (ys : List (ℕ × SearchRes))
    (h : ∀ y ∈ ys, x.1 < y.1) :
    (List.orderedInsert lexAmended x ys).map Prod.snd
      = List.orderedInsert weightedDesc x.2 (ys.map Prod.snd) := by
  induction ys with
  | nil => rfl
  | cons y ys ih =>
    have hxy : x.1 < y.1 := h y (List.mem_cons_self y ys)
    by_cases hw : weightedDesc x.2 y.2
    · rw [List.orderedInsert.eq_2, if_pos ((lexAmended_iff_weightedDesc hxy).2 hw),
        List.map_cons, List.map_cons, List.orderedInsert.eq_2, if_pos hw]
    · rw [List.orderedInsert.eq_2, if_neg (fun hl => hw ((lexAmended_iff_weightedDesc hxy).1 hl)),
        List.map_cons, List.map_cons, List.orderedInsert.eq_2, if_neg hw,
        ih (fun z hz => h z (List.mem_cons_of_mem y hz))]

theorem map_snd_insertionSort (xs : List (ℕ × SearchRes))
    (h : xs.Pairwise (fun a b => a.1 < b.1)) :
    (List.insertionSort lexAmended xs).map Prod.snd
      = List.insertionSort weightedDesc (xs.map Prod.snd) := by
  induction xs with
  | nil => rfl
  | cons x xs ih =>
    rw [List.insertionSort, List.map_cons, List.insertionSort,
      map_snd_orderedInsert x _ (fun y hy => (List.pairwise_cons.1 h).1 y
        ((List.mem_insertionSort lexAmended).1 hy)),
      ih (List.pairwise_cons.1 h).2]

theorem pairwise_fst_lt_enumFrom {α : Type _} : ∀ (l : List α) (n : ℕ),
    (List.enumFrom n l).Pairwise (fun a b => a.1 < b.1)
  | [], _ => List.Pairwise.nil
  | x :: l, n => by
    simp only [List.enumFrom]
    exact List.Pairwise.cons
      (fun y hy => Nat.lt_of_lt_of_le (Nat.lt_succ_self n) (List.le_fst_of_mem_enumFrom hy))
      (pairwise_fst_lt_enumFrom l (n + 1))

/-- C1 is false as stated: at a global hit of similarity 2/5 and a room hit
of similarity 3/5 with the default weights 0.6/0.4, the weighted scores tie
at 6/25, and the code emits the system result before the room result (stable
sort over the concatenation), while the claimed tie-break on unweighted
similarity descending would put the room result (similarity 3/5) first. -/
theorem C1_hybrid_tie_break_counterexample :
    hybrid_combine [c1sys] [c1room] (3/5) (2/5) 15
      ≠ hybrid_combine_claimed [c1sys] [c1room] (3/5) (2/5) 15
    ∧ (hybrid_combine [c1sys] [c1room] (3/5) (2/5) 15).map
        (fun r => r.similarity_score) = [2/5, 3/5]
    ∧ (hybrid_combine_claimed [c1sys] [c1room] (3/5) (2/5) 15).map
        (fun r => r.similarity_score) = [3/5, 2/5]
    ∧ (hybrid_combine [c1sys] [c1room] (3/5) (2/5) 15).map
        (fun r => r.weighted_score.getD 0) = [6/25, 6/25]
    ∧ (hybrid_combine [c1sys] [c1room] (3/5) (2/5) 15).map
        (fun r => r.source_type) = [some "system", some "room"] := by
  have hcode : hybrid_combine [c1sys] [c1room] (3/5) (2/5) 15
      = [tagResult (3/5) "system" c1sys, tagResult (2/5) "room" c1room] := by
    norm_num [hybrid_combine, hybrid_tagged_union, c1sys, c1room, List.insertionSort,
      List.orderedInsert, weightedDesc, tagResult]
  have hclaim : hybrid_combine_claimed [c1sys] [c1room] (3/5) (2/5) 15
      = [tagResult (2/5) "room" c1room, tagResult (3/5) "system" c1sys] := by
    norm_num [hybrid_combine_claimed, hybrid_tagged_union, c1sys, c1room, List.insertionSort,
      List.orderedInsert, simTieDesc, tagResult]
  refine ⟨?_, ?_, ?_, ?_, ?_⟩
  · rw [hcode, hclaim]
    simp [tagResult, c1sys, c1room]
  · rw [hcode]
    norm_num [tagResult, c1sys, c1room]
  · rw [hclaim]
    norm_num [tagResult, c1sys, c1room]
  · rw [hcode]
    norm_num [tagResult, c1sys, c1room]
  · rw [hcode]
    norm_num [tagResult, c1sys, c1room]

/-- C1 (amended): when both scoped searches succeed, the fusion returns the
`top_k` prefix of the weighted, provenance-tagged union of global results
followed by room-document results, ordered by weighted score
(`similarity_score` times the respective weight) descending — with ties
between equal weighted scores broken by position in the concatenated union
(system results before room results, each side keeping its original order),
not by unweighted similarity. -/
theorem C1_hybrid_fusion_stable_tie_break
    (system_results room_results_raw : List SearchRes)
    (system_weight room_weight : ℚ) (top_k : ℕ) :
    hybrid_combine system_results room_results_raw system_weight room_weight top_k
      = ((List.insertionSort lexAmended
            (hybrid_tagged_union system_results room_results_raw system_weight
              room_weight).enum).map Prod.snd).take top_k := by
  unfold hybrid_combine
  have hp : (hybrid_tagged_union system_results room_results_raw system_weight
      room_weight).enum.Pairwise (fun a b => a.1 < b.1) := by
    simpa [List.enum] using pairwise_fst_lt_enumFrom
      (hybrid_tagged_union system_results room_results_raw system_weight room_weight) 0
  rw [map_snd_insertionSort _ hp, List.enum_map_snd]

theorem chain2_get (f : ℕ → Except String (List LawDoc))
    (cands : List (List (String × JVal))) (j : ℕ) (hj : j < cands.length)
    (h : j < (chain2_search_related_laws f cands).length) :
    (chain2_search_related_laws f cands).get ⟨j, h⟩
      = search_laws_for_violation (f j) (cands.get ⟨j, hj⟩) := by
  simp [chain2_search_related_laws, List.get_eq_getElem, List.getElem_map, List.getElem_enum]

/-- C8: chain stage 2 returns one entry per candidate, in order: each entry
carries the candidate's dict unchanged, a `related_laws` list and a
`laws_found` count equal to that list's length; a successful search yields
its hits, a failed search yields an empty list and count 0; and a candidate's
entry depends only on its own search outcome, so one candidate's failure
cannot remove, fail or alter the evidence of any other candidate. -/
theorem C8_chain2_failure_isolated_per_candidate
    (searchOutcome : ℕ → Except String (List LawDoc))
    (violation_candidates : List (List (String × JVal))) :
    (chain2_search_related_laws searchOutcome violation_candidates).length
        = violation_candidates.length
    ∧ (∀ i (hi : i < violation_candidates.length),
        ∃ ho : i < (chain2_search_related_laws searchOutcome violation_candidates).length,
          ((chain2_search_related_laws searchOutcome violation_candidates).get ⟨i, ho⟩).violation
              = violation_candidates.get ⟨i, hi⟩
          ∧ ((chain2_search_related_laws searchOutcome violation_candidates).get
                ⟨i, ho⟩).laws_found
              = ((chain2_search_related_laws searchOutcome violation_candidates).get
                  ⟨i, ho⟩).related_laws.length
          ∧ (∀ laws, searchOutcome i = .ok laws →
              ((chain2_search_related_laws searchOutcome violation_candidates).get
                  ⟨i, ho⟩).related_laws = laws)
          ∧ (∀ e, searchOutcome i = .error e →
              ((chain2_search_related_laws searchOutcome violation_candidates).get
                  ⟨i, ho⟩).related_laws = []
              ∧ ((chain2_search_related_laws searchOutcome violation_candidates).get
                  ⟨i, ho⟩).laws_found = 0))
    ∧ (∀ (searchOutcome' : ℕ → Except String (List LawDoc)) (j : ℕ)
        (h1 : j < (chain2_search_related_laws searchOutcome violation_candidates).length)
        (h2 : j < (chain2_search_related_laws searchOutcome' violation_candidates).length),
        searchOutcome j = searchOutcome' j →
        (chain2_search_related_laws searchOutcome violation_candidates).get ⟨j, h1⟩
          = (chain2_search_related_laws searchOutcome' violation_candidates).get ⟨j, h2⟩) := by
  have hlen : ∀ f : ℕ → Except String (List LawDoc),
      (chain2_search_related_laws f violation_candidates).length
        = violation_candidates.length := by
    intro f
    simp [chain2_search_related_laws]
  refine ⟨hlen searchOutcome, ?_, ?_⟩
  · intro i hi
    refine ⟨(hlen searchOutcome) ▸ hi, ?_⟩
    rw [chain2_get searchOutcome violation_candidates i hi]
    cases hout : searchOutcome i with
    | ok laws =>
      refine ⟨rfl, rfl, ?_, ?_⟩
      · intro laws' h
        cases h
        rfl
      · intro e h
        cases h
    | error e0 =>
      refine ⟨rfl, rfl, ?_, ?_⟩
      · intro laws' h
        cases h
      · intro e h
        exact ⟨rfl, rfl⟩
  · intro f' j h1 h2 hsame
    have hj : j < violation_candidates.length := (hlen searchOutcome) ▸ h1
    rw [chain2_get searchOutcome violation_candidates j hj,
      chain2_get f' violation_candidates j hj, hsame]

/-- C8 witness: with two candidates where candidate 0's search fails and
candidate 1's succeeds, both candidates survive with their dicts intact,
candidate 0 gets the empty evidence list with count 0 and candidate 1 keeps
its hit. -/
theorem C8_chain2_failure_isolated_per_candidate_witness :
    (chain2_search_related_laws c8search c8cands).length = 2
    ∧ ((chain2_search_related_laws c8search c8cands).get ⟨0, by decide⟩).violation = c8cands.get ⟨0, by decide⟩
    ∧ ((chain2_search_related_laws c8search c8cands).get ⟨0, by decide⟩).related_laws = []
    ∧ ((chain2_search_related_laws c8search c8cands).get ⟨0, by decide⟩).laws_found = 0
    ∧ ((chain2_search_related_laws c8search c8cands).get ⟨1, by decide⟩).related_laws
        = [⟨"민법.pdf", "내용", 4/5⟩] := by
  obtain ⟨hlen, hper, _⟩ := C8_chain2_failure_isolated_per_candidate c8search c8cands
  obtain ⟨h0, hviol0, _, _, herr0⟩ := hper 0 (by decide)
  obtain ⟨h1, _, _, hok1, _⟩ := hper 1 (by decide)
  exact ⟨hlen.trans rfl, hviol0, (herr0 "search down" rfl).1, (herr0 "search down" rfl).2,
    hok1 _ rfl⟩

theorem chain3_get (llm : ℕ → String) (vds : List ViolationWithLaws) (j : ℕ)
    (hj : j < vds.length) (h : j < (chain3_detailed_analysis llm vds).length) :
    (chain3_detailed_analysis llm vds).get ⟨j, h⟩
      = chain3_entry (llm j) (vds.get ⟨j, hj⟩) := by
  simp [chain3_detailed_analysis, List.get_eq_getElem, List.getElem_map, List.getElem_enum]

/-- C4: chain stage 3 returns exactly one verdict per evidence-augmented
candidate, in order: the parsed LLM verdict when the extracted response text
parses, and otherwise — on per-candidate JSON parse failure — a fallback
verdict assembled only from the candidate's stage-1/2 fields (clause number,
title, risk type, rationale) plus at most 2 evidence filenames (`.pdf`
stripped) as cited laws; the candidate is degraded, never dropped. -/
theorem C4_chain3_parse_failure_degrades_never_drops
    (llm : ℕ → String) (violations_with_laws : List ViolationWithLaws) :
    (chain3_detailed_analysis llm violations_with_laws).length = violations_with_laws.length
    ∧ ∀ i (hi : i < violations_with_laws.length),
        ∃ ho : i < (chain3_detailed_analysis llm violations_with_laws).length,
          (∀ v, json_loads (extract_json_str (llm i)) = some v →
            (chain3_detailed_analysis llm violations_with_laws).get ⟨i, ho⟩ = v)
          ∧ (json_loads (extract_json_str (llm i)) = none →
              (chain3_detailed_analysis llm violations_with_laws).get ⟨i, ho⟩
                = .jobj
                    [("조항_위치", .jstr
                        (getStrD (violations_with_laws.get ⟨i, hi⟩).violation "clause_number"
                          ++ " (" ++
                          getStrD (violations_with_laws.get ⟨i, hi⟩).violation "clause_title"
                          ++ ")")),
                     ("리스크_유형", .jstr
                        (getStrD (violations_with_laws.get ⟨i, hi⟩).violation "risk_type")),
                     ("판단_근거", .jstr
                        (getStrD (violations_with_laws.get ⟨i, hi⟩).violation "brief_reason")),
                     ("의견", .jstr "상세 분석 실패로 인해 기본 정보만 제공"),
                     ("관련_법령", .jarr
                        (((violations_with_laws.get ⟨i, hi⟩).related_laws.take 2).map
                          (fun law => .jstr (pyReplace law.filename ".pdf" ""))))]) := by
  have hlen : (chain3_detailed_analysis llm violations_with_laws).length
      = violations_with_laws.length := by
    simp [chain3_detailed_analysis]
  refine ⟨hlen, ?_⟩
  intro i hi
  refine ⟨hlen ▸ hi, ?_⟩
  rw [chain3_get llm violations_with_laws i hi]
  constructor
  · intro v hv
    simp [chain3_entry, hv]
  · intro hnone
    simp [chain3_entry, hnone, chain3_fallback]

/-- C4 witness: a response that is not JSON degrades the candidate to the
fallback verdict built from its own stage-1/2 fields and the first two
evidence filenames, instead of dropping it. -/
theorem C4_chain3_parse_failure_degrades_never_drops_witness :
    (chain3_detailed_analysis (fun _ => "형식 오류 응답") [c4vd]).length = 1
    ∧ (chain3_detailed_analysis (fun _ => "형식 오류 응답") [c4vd]).get ⟨0, by decide⟩
      = .jobj
          [("조항_위치", .jstr "제9조 (손해배상)"),
           ("리스크_유형", .jstr "과도한_손해배상"),
           ("판단_근거", .jstr "일방적 배상"),
           ("의견", .jstr "상세 분석 실패로 인해 기본 정보만 제공"),
           ("관련_법령", .jarr [.jstr "민법", .jstr "상법"])] := by
  obtain ⟨hlen, hper⟩ :=
    C4_chain3_parse_failure_degrades_never_drops (fun _ => "형식 오류 응답") [c4vd]
  obtain ⟨h0, _, hnone⟩ := hper 0 (by decide)
  exact ⟨hlen.trans rfl, (hnone rfl).trans rfl⟩

/-- C10 witness: updating the settings of a chunker configured at 500/50 to
123/7 yields exactly the state ⟨123, 7⟩ and leaves the parent chunks (and the
standalone decision of the 600-char parent) unchanged. -/
theorem C10_update_chunk_settings_only_child_splitter_witness :
    update_chunk_settings ⟨500, 50⟩ 123 7 = ⟨123, 7⟩
    ∧ (chunk_markdown_st c2mdSplit (fun _ _ s => [s]) (update_chunk_settings ⟨500, 50⟩ 123 7)
          "본문" "doc").parent_chunks
        = (chunk_markdown_st c2mdSplit (fun _ _ s => [s]) ⟨500, 50⟩ "본문" "doc").parent_chunks
    ∧ (parentToVChunk ((chunk_markdown_st c2mdSplit (fun _ _ s => [s]) ⟨500, 50⟩ "본문"
          "doc").parent_chunks.get ⟨1, by decide⟩)).is_for_embedding
        = decide ((parentToVChunk ((chunk_markdown_st c2mdSplit (fun _ _ s => [s]) ⟨500, 50⟩
            "본문" "doc").parent_chunks.get ⟨1, by decide⟩)).content_length ≤ 500) := by
  obtain ⟨h1, _, h3, _, h5⟩ := C10_update_chunk_settings_only_child_splitter
    ⟨500, 50⟩ ⟨0, 0⟩ 123 7 c2mdSplit (fun _ _ s => [s]) "본문" "doc"
  refine ⟨h1, h3, ?_⟩
  refine h5 _ ?_ rfl
  exact List.mem_append_left _ (List.mem_map_of_mem _ (List.get_mem _ _ _))

end SmartCLM
